import Mathlib

/-!
# Verification of the zen2 trading engine

Shallow embedding of the decision engine of the zen2 repository
(`src/TradingTerminal.tsx`, `src/services/bitcoinService.ts`,
`src/types.ts`) and proofs of the specification claims about it.

Numbers are modelled as rationals (`ℚ`); JavaScript `Date.now()`
timestamps as integers (milliseconds); strings as Lean `String` or
`List Char` where character-level inspection matters.  The external
order-placement collaborator (`polymarketService`, out of scope per the
spec) is modelled by an oracle `orderResult : ℕ → Option (List Char)`
giving, for the n-th order submitted during a tick, either success
(`none`) or a failure message.
-/

namespace Zen2

/-! ## Data model, from `src/types.ts` -/

inductive Outcome
  | YES
  | NO
  deriving DecidableEq, Repr

inductive Side
  | BUY
  | SELL
  deriving DecidableEq, Repr

inductive TradeStatus
  | OPEN
  | CLOSED
  | PARTIAL
  deriving DecidableEq, Repr

inductive TradeDirectionBias
  | BOTH
  | YES_ONLY
  | NO_ONLY
  deriving DecidableEq, Repr

/-- Structure `TradeLog` from `src/types.ts` (the optional `pnl` field is never read
or written by the engine and is omitted). -/
structure TradeLog where
  id : String
  timestamp : ℤ
  marketId : String
  question : String
  outcome : Outcome
  side : Side
  entryPrice : ℚ
  size : ℚ
  btcPriceAtEntry : ℚ
  modelProb : ℚ
  marketProb : ℚ
  volatilityAtEntry : ℚ
  status : TradeStatus
  deriving DecidableEq, Repr

/-- Structure `RiskConfig` from `src/types.ts`. -/
structure RiskConfig where
  maxPositionSize : ℚ
  edgeThreshold : ℚ
  maxTradesPerSeries : ℕ
  volatilityLookback : ℕ
  minProbThreshold : ℚ
  takeProfitPct : ℚ
  sellAmountPct : ℚ
  directionBias : TradeDirectionBias
  maxBuyCountPerMarket : ℕ
  deriving DecidableEq, Repr

/-- The fields of `Market` (`src/types.ts`) the engine reads:
`clobTokenIds[0]` is the YES token, `clobTokenIds[1]` the NO token. -/
structure Market where
  id : String
  question : String
  yesTokenId : String
  noTokenId : String
  deriving DecidableEq, Repr

/-! ## `src/services/bitcoinService.ts` -/

/-- The mean used by `calculateVolatility`:
`prices.reduce((a, b) => a + b, 0) / prices.length`. -/
def mean (prices : List ℚ) : ℚ :=
  prices.sum / prices.length

/-- The variance computed by `calculateVolatility`
(`src/services/bitcoinService.ts` line 24):
`prices.reduce((a, b) => a + Math.pow(b - mean, 2), 0) / prices.length`.
Note the divisor is the number of samples `N`. -/
def codeVariance (prices : List ℚ) : ℚ :=
  (prices.map (fun b => (b - mean prices) ^ 2)).sum / prices.length

/-- Function `calculateVolatility` from `src/services/bitcoinService.ts` lines 20-26:
returns 5.0 with fewer than 2 samples, otherwise
`Math.max(Math.sqrt(variance), 1.0)`. -/
noncomputable def calculateVolatility (prices : List ℚ) : ℝ :=
  if prices.length < 2 then 5
  else max (Real.sqrt (codeVariance prices)) 1

/-- Modelled from the spec's words for comparison (claim C8): the *sample*
variance of the prices, i.e. the sum of squared deviations from the mean
divided by `N - 1` (Bessel's correction). -/
def specSampleVariance (prices : List ℚ) : ℚ :=
  (prices.map (fun b => (b - mean prices) ^ 2)).sum / (prices.length - 1 : ℕ)

/-- Modelled from the spec's words for comparison (claim C8): the sample
standard deviation of the prices. -/
noncomputable def specSampleStdDev (prices : List ℚ) : ℝ :=
  Real.sqrt (specSampleVariance prices)

/-- Function `calculateProbability` from `src/services/bitcoinService.ts` lines 83-90.
`Math.round` in JavaScript is `⌊x + 1/2⌋`, which is Mathlib's `round`. -/
def calculateProbability (currentPrice strikePrice : ℚ)
    (timeToExpiryMinutes volatility : ℚ) (price15mAgo : ℚ) : ℤ :=
  if currentPrice = 0 ∨ price15mAgo = 0 then 50
  else
    let move := (currentPrice - price15mAgo) / price15mAgo * 1000
    let prob := 50 + move * 2
    let prob := prob + (currentPrice - strikePrice) / strikePrice * 1000 * 1
    min 99 (max 1 (round prob))

/-- The closed formula claimed for `calculateProbability` (claim C7),
written from the claim's words. -/
def specProbFormula (current strike lagged : ℚ) : ℤ :=
  min 99 (max 1 (round (50 + 2 * ((current - lagged) / lagged * 1000)
    + (current - strike) / strike * 1000)))

/-! ## The decision engine, from `src/TradingTerminal.tsx` (`runEngine`)

The engine's mutable refs/state (`botStatusRef`, `lastTradeTimeRef`,
`processingTradeRef`) are collected in `EngineState`.  The values the tick
reads from the outside world (clock, selected market, configuration
availability, order-book tops, model probability, BTC feed, the random id
for a new log entry, and the results of order submissions) form
`TickInput`.  A tick produces the new state and a trace of the atomic
actions it performed (lock transitions, order submissions, log events),
on which the locking and ordering claims are stated. -/

/-- Constant `COOLDOWN_MS` from `src/TradingTerminal.tsx` line 42. -/
def COOLDOWN_MS : ℤ := 15000

structure EngineState where
  isActive : Bool
  logs : List TradeLog
  tradesCount : ℕ
  lastTradeTime : ℤ
  processingTrade : Bool
  deriving DecidableEq, Repr

/-- An order handed to `placeOrderWithClient`. -/
structure Order where
  tokenId : String
  price : ℚ
  size : ℚ
  side : Side
  deriving DecidableEq, Repr

/-- The `addEvent` calls made by `runEngine`, with the data they carry. -/
inductive EngineEvent
  | engineHalted
  | skipProcessing
  | tickStart
  | fetchingBooks
  | clobDepth (yesAsk noAsk : ℚ)
  | checkingPositions (n : ℕ)
  | tpTriggeredMsg (pnlPct sellPct : ℚ)
  | tpExecuted
  | tpFailed (msg : List Char)
  | alphaAnalysis (modelProb yesEdge noEdge : ℚ)
  | buyLimitReached (current limit : ℕ)
  | opportunityFound (outcome : Outcome) (price maxSize : ℚ)
  | orderConfirmed
  | authError
  | entryFailed (msg : List Char)
  deriving DecidableEq, Repr

/-- An atomic step of a tick, as recorded in the tick's trace. -/
inductive Action
  | lockAcquire
  | lockRelease
  | submit (o : Order)
  | log (e : EngineEvent)
  deriving DecidableEq, Repr

/-- What `runEngine` reads from outside during one tick. -/
structure TickInput where
  /-- Value of `Date.now()` at this tick. -/
  now : ℤ
  /-- Value of `selectedMarketRef.current`. -/
  market : Option Market
  /-- Truth of `secrets.proxyAddress && secrets.isConfigured && apiCreds && signer`
  (line 434). -/
  ctxOk : Bool
  /-- Top ask `yesBook.asks[0]?.price` (absent if the ask list is empty). -/
  yesAskTop : Option ℚ
  noAskTop : Option ℚ
  yesBidTop : Option ℚ
  noBidTop : Option ℚ
  /-- The `modelProb` React state read by the tick. -/
  modelProb : ℚ
  btcPrice : ℚ
  btcVol : ℚ
  /-- The `Math.random()`-generated id for a new `TradeLog`. -/
  freshId : String
  /-- Result of the n-th `placeOrderWithClient` call of this tick:
  `none` = resolved, `some msg` = rejected with error message `msg`. -/
  orderResult : ℕ → Option (List Char)

/-- JavaScript `x || d` applied to a possibly-absent number: both
`undefined` and `0` are falsy and yield the default. -/
def jsOr (x : Option ℚ) (d : ℚ) : ℚ :=
  match x with
  | none => d
  | some p => if p = 0 then d else p

/-- The filter `botStatusRef.current.logs.filter(l => l.status === 'OPEN' && l.marketId === market.id)`
(line 450). -/
def openTrades (logs : List TradeLog) (marketId : String) : List TradeLog :=
  logs.filter fun l => decide (l.status = .OPEN) && decide (l.marketId = marketId)

/-- The count `logs.filter(l => l.marketId === market.id && l.side === 'BUY').length`
(line 537): the cumulative BUY count, ignoring status. -/
def buyCount (logs : List TradeLog) (marketId : String) : ℕ :=
  (logs.filter fun l => decide (l.marketId = marketId) && decide (l.side = .BUY)).length

/-- The update `prev.logs.map(l => l.id === trade.id ? ... : l)`
(line 493). -/
def setStatus (tid : String) (s : TradeStatus) (logs : List TradeLog) : List TradeLog :=
  logs.map fun l => if l.id = tid then { l with status := s } else l

/-- The best bid for a position's outcome side (line 468), with the
`|| 0` default of lines 460-461. -/
def tpBid (inp : TickInput) (outcome : Outcome) : ℚ :=
  if outcome = .YES then jsOr inp.yesBidTop 0 else jsOr inp.noBidTop 0

/-- The quantity `((currentBid - trade.entryPrice) / trade.entryPrice) * 100` (line 471). -/
def pnlPct (bid entry : ℚ) : ℚ :=
  (bid - entry) / entry * 100

/-- Accumulator of the take-profit loop: the evolving logs, the number of
orders submitted so far this tick, and the trace so far. -/
structure TpAcc where
  logs : List TradeLog
  orderIdx : ℕ
  trace : List Action
  deriving Repr

/-- One iteration of the take-profit loop (lines 467-505). -/
def tpStep (risk : RiskConfig) (m : Market) (inp : TickInput)
    (acc : TpAcc) (trade : TradeLog) : TpAcc :=
  let currentBid := tpBid inp trade.outcome
  if currentBid > 0 then
    let pnl := pnlPct currentBid trade.entryPrice
    if pnl ≥ risk.takeProfitPct then
      let sellSize := trade.size * (risk.sellAmountPct / 100)
      let sellTokenId := if trade.outcome = .YES then m.yesTokenId else m.noTokenId
      let order : Order :=
        { tokenId := sellTokenId, price := currentBid - 0.01, size := sellSize, side := .SELL }
      let tr := acc.trace ++
        [.lockAcquire, .log (.tpTriggeredMsg pnl risk.sellAmountPct), .submit order]
      match inp.orderResult acc.orderIdx with
      | none =>
          { logs := setStatus trade.id
              (if risk.sellAmountPct = 100 then .CLOSED else .PARTIAL) acc.logs,
            orderIdx := acc.orderIdx + 1,
            trace := tr ++ [.log .tpExecuted, .lockRelease] }
      | some msg =>
          { logs := acc.logs,
            orderIdx := acc.orderIdx + 1,
            trace := tr ++ [.log (.tpFailed msg), .lockRelease] }
    else acc
  else acc

/-- The `for (const trade of openTrades)` loop, folded sequentially. -/
def tpLoop (risk : RiskConfig) (m : Market) (inp : TickInput) :
    List TradeLog → TpAcc → TpAcc
  | [], acc => acc
  | t :: ts, acc => tpLoop risk m inp ts (tpStep risk m inp acc t)

/-- The quantity `yesEdge = ((modelProb / 100) - bestYesAsk) * 100` (line 514). -/
def yesEdge (modelProb bestYesAsk : ℚ) : ℚ :=
  (modelProb / 100 - bestYesAsk) * 100

/-- The quantity `noEdge = ((100 - modelProb) / 100 - bestNoAsk) * 100` (line 515). -/
def noEdge (modelProb bestNoAsk : ℚ) : ℚ :=
  ((100 - modelProb) / 100 - bestNoAsk) * 100

/-- The entry-side selection of lines 519-533: the `executeOutcome` /
`executePrice` pair, `none` when neither branch fires. -/
def entryDecision (risk : RiskConfig) (modelProb bestYesAsk bestNoAsk : ℚ) :
    Option (Outcome × ℚ) :=
  if (risk.directionBias = .BOTH ∨ risk.directionBias = .YES_ONLY) ∧
      modelProb ≥ risk.minProbThreshold ∧
      yesEdge modelProb bestYesAsk ≥ risk.edgeThreshold then
    some (.YES, bestYesAsk)
  else if (risk.directionBias = .BOTH ∨ risk.directionBias = .NO_ONLY) ∧
      (100 - modelProb) ≥ risk.minProbThreshold ∧
      noEdge modelProb bestNoAsk ≥ risk.edgeThreshold then
    some (.NO, bestNoAsk)
  else none

/-- JavaScript `hay.includes(needle)`, character-level. -/
def containsSub (hay needle : List Char) : Bool :=
  hay.tails.any fun t => needle.isPrefixOf t

/-- JavaScript `msg.toLowerCase()` (the messages involved are ASCII). -/
def lowerCase (msg : List Char) : List Char :=
  msg.map Char.toLower

/-- The authorization-error test of line 582:
`eMsg.toLowerCase().includes("unauthorized") || eMsg.includes("401") ||
eMsg.toLowerCase().includes("invalid api key")`. -/
def isAuthError (msg : List Char) : Bool :=
  containsSub (lowerCase msg) "unauthorized".data ||
  containsSub msg "401".data ||
  containsSub (lowerCase msg) "invalid api key".data

/-- The event prologue and take-profit phase of a tick (lines 445-506):
the initial log events, then the take-profit loop over the open positions
of the selected market. -/
def tpPhase (risk : RiskConfig) (m : Market) (inp : TickInput) (st : EngineState) : TpAcc :=
  tpLoop risk m inp (openTrades st.logs m.id)
    { logs := st.logs, orderIdx := 0,
      trace :=
        [.log .tickStart, .log .fetchingBooks,
         .log (.clobDepth (jsOr inp.yesAskTop 1) (jsOr inp.noAskTop 1))] ++
        (if (openTrades st.logs m.id).length > 0
         then [.log (.checkingPositions (openTrades st.logs m.id).length)] else []) }

/-- The entry phase of a tick (lines 514-597), reached when the cooldown
gate passes; `acc` is the result of the take-profit phase. -/
def entryPhase (risk : RiskConfig) (m : Market) (inp : TickInput) (st : EngineState)
    (acc : TpAcc) : EngineState × List Action :=
  let bestYesAsk := jsOr inp.yesAskTop 1
  let bestNoAsk := jsOr inp.noAskTop 1
  let tr1 := acc.trace ++
    [.log (.alphaAnalysis inp.modelProb (yesEdge inp.modelProb bestYesAsk)
      (noEdge inp.modelProb bestNoAsk))]
  match entryDecision risk inp.modelProb bestYesAsk bestNoAsk with
  | none => ({ st with logs := acc.logs }, tr1)
  | some (outcome, executePrice) =>
    let currentBuys := buyCount acc.logs m.id
    if currentBuys ≥ risk.maxBuyCountPerMarket then
      ({ st with logs := acc.logs },
       tr1 ++ [.log (.buyLimitReached currentBuys risk.maxBuyCountPerMarket)])
    else
      let unitsToBuy := risk.maxPositionSize / executePrice
      let buyTokenId := if outcome = .YES then m.yesTokenId else m.noTokenId
      let order : Order :=
        { tokenId := buyTokenId, price := executePrice + 0.01,
          size := unitsToBuy, side := .BUY }
      let tr2 := tr1 ++
        [.lockAcquire,
         .log (.opportunityFound outcome executePrice risk.maxPositionSize),
         .submit order]
      match inp.orderResult acc.orderIdx with
      | none =>
        let newLog : TradeLog :=
          { id := inp.freshId, timestamp := inp.now, marketId := m.id,
            question := m.question, outcome := outcome, side := .BUY,
            entryPrice := executePrice, size := unitsToBuy,
            btcPriceAtEntry := inp.btcPrice, modelProb := inp.modelProb,
            marketProb := executePrice * 100, volatilityAtEntry := inp.btcVol,
            status := .OPEN }
        ({ st with logs := acc.logs ++ [newLog],
                   tradesCount := st.tradesCount + 1,
                   lastTradeTime := inp.now },
         tr2 ++ [.log .orderConfirmed, .lockRelease])
      | some msg =>
        ({ st with logs := acc.logs },
         tr2 ++ [.log (if isAuthError msg then .authError else .entryFailed msg),
                 .lockRelease])

/-- The tick body once the preconditions of lines 428-443 pass: take-profit
phase, cooldown gate (lines 509-512), then entry phase. -/
def tickBody (risk : RiskConfig) (m : Market) (inp : TickInput) (st : EngineState) :
    EngineState × List Action :=
  let acc := tpPhase risk m inp st
  if inp.now - st.lastTradeTime < COOLDOWN_MS then
    ({ st with logs := acc.logs }, acc.trace)
  else entryPhase risk m inp st acc

/-- One tick of the engine: `runEngine` from `src/TradingTerminal.tsx`
lines 427-602.  UI-only effects (`setIsExecuting`, `syncWallet`) are not
modelled; `addEvent` calls become `Action.log` entries in the trace.  The
order-book fetch is modelled by the `TickInput` book tops (the fetch
itself never throws: the transport collaborator absorbs errors), so the
outer catch of line 598 is unreachable in the model. -/
def runEngine (risk : RiskConfig) (inp : TickInput) (st : EngineState) :
    EngineState × List Action :=
  match inp.market with
  | none => (st, [])
  | some market =>
    if st.isActive = false then (st, [])
    else if inp.ctxOk = false then
      ({ st with isActive := false }, [.log .engineHalted])
    else if st.processingTrade then (st, [.log .skipProcessing])
    else tickBody risk market inp st

/-- A sequence of engine ticks. -/
def runTicks (risk : RiskConfig) (inps : List TickInput) (st : EngineState) : EngineState :=
  inps.foldl (fun s i => (runEngine risk i s).1) st

/-- Modelled from the amended claim C8: the population standard deviation
of the prices, i.e. the square root of the sum of squared deviations from
the mean divided by the number of samples `N`. -/
noncomputable def specPopulationStdDev (prices : List ℚ) : ℝ :=
  Real.sqrt (((prices.map (fun b => (b - mean prices) ^ 2)).sum / prices.length : ℚ))

/-! ## Helper notions and lemmas about the take-profit loop -/

/-- The take-profit trigger condition for one open position (lines
470-472): positive best bid on the position's side, and profit percentage
at or above the threshold. -/
def tpFires (risk : RiskConfig) (inp : TickInput) (t : TradeLog) : Prop :=
  tpBid inp t.outcome > 0 ∧ pnlPct (tpBid inp t.outcome) t.entryPrice ≥ risk.takeProfitPct

instance (risk : RiskConfig) (inp : TickInput) (t : TradeLog) :
    Decidable (tpFires risk inp t) := by
  rw [tpFires]; infer_instance

/-- The SELL order submitted for a triggered position (lines 480-489). -/
def tpOrder (risk : RiskConfig) (m : Market) (inp : TickInput) (t : TradeLog) : Order :=
  { tokenId := if t.outcome = .YES then m.yesTokenId else m.noTokenId,
    price := tpBid inp t.outcome - 0.01,
    size := t.size * (risk.sellAmountPct / 100),
    side := .SELL }

/-- The status a fully-processed take-profit sell assigns (line 493). -/
def tpNewStatus (risk : RiskConfig) : TradeStatus :=
  if risk.sellAmountPct = 100 then .CLOSED else .PARTIAL

theorem tpStep_of_not_fires (risk : RiskConfig) (m : Market) (inp : TickInput)
    (acc : TpAcc) (t : TradeLog) (h : ¬ tpFires risk inp t) :
    tpStep risk m inp acc t = acc := by
  rw [tpFires] at h
  push_neg at h
  by_cases h1 : tpBid inp t.outcome > 0
  · simp only [tpStep, if_pos h1, if_neg (not_le.mpr (h h1))]
  · simp only [tpStep, if_neg h1]

theorem tpStep_of_fires_ok (risk : RiskConfig) (m : Market) (inp : TickInput)
    (acc : TpAcc) (t : TradeLog) (h : tpFires risk inp t)
    (hr : inp.orderResult acc.orderIdx = none) :
    tpStep risk m inp acc t =
      { logs := setStatus t.id (tpNewStatus risk) acc.logs,
        orderIdx := acc.orderIdx + 1,
        trace := acc.trace ++
          [.lockAcquire,
           .log (.tpTriggeredMsg (pnlPct (tpBid inp t.outcome) t.entryPrice) risk.sellAmountPct),
           .submit (tpOrder risk m inp t), .log .tpExecuted, .lockRelease] } := by
  obtain ⟨h1, h2⟩ := h
  simp only [tpStep, if_pos h1, if_pos h2, hr, tpOrder, tpNewStatus, List.append_assoc,
    List.cons_append, List.nil_append]

theorem tpStep_of_fires_err (risk : RiskConfig) (m : Market) (inp : TickInput)
    (acc : TpAcc) (t : TradeLog) (h : tpFires risk inp t) (msg : List Char)
    (hr : inp.orderResult acc.orderIdx = some msg) :
    tpStep risk m inp acc t =
      { logs := acc.logs,
        orderIdx := acc.orderIdx + 1,
        trace := acc.trace ++
          [.lockAcquire,
           .log (.tpTriggeredMsg (pnlPct (tpBid inp t.outcome) t.entryPrice) risk.sellAmountPct),
           .submit (tpOrder risk m inp t), .log (.tpFailed msg), .lockRelease] } := by
  obtain ⟨h1, h2⟩ := h
  simp only [tpStep, if_pos h1, if_pos h2, hr, tpOrder, List.append_assoc,
    List.cons_append, List.nil_append]

theorem tpLoop_append (risk : RiskConfig) (m : Market) (inp : TickInput)
    (xs ys : List TradeLog) (acc : TpAcc) :
    tpLoop risk m inp (xs ++ ys) acc = tpLoop risk m inp ys (tpLoop risk m inp xs acc) := by
  induction xs generalizing acc with
  | nil => rfl
  | cons x xs ih => exact ih (tpStep risk m inp acc x)

theorem tpStep_orderIdx (risk : RiskConfig) (m : Market) (inp : TickInput)
    (acc : TpAcc) (t : TradeLog) :
    (tpStep risk m inp acc t).orderIdx =
      acc.orderIdx + (if tpFires risk inp t then 1 else 0) := by
  by_cases h : tpFires risk inp t
  · rw [if_pos h]
    rcases hr : inp.orderResult acc.orderIdx with _ | msg
    · rw [tpStep_of_fires_ok risk m inp acc t h hr]
    · rw [tpStep_of_fires_err risk m inp acc t h msg hr]
  · rw [if_neg h, tpStep_of_not_fires risk m inp acc t h]
    omega

theorem tpLoop_orderIdx (risk : RiskConfig) (m : Market) (inp : TickInput)
    (ts : List TradeLog) (acc : TpAcc) :
    (tpLoop risk m inp ts acc).orderIdx =
      acc.orderIdx + ts.countP (fun t => decide (tpFires risk inp t)) := by
  induction ts generalizing acc with
  | nil => simp [tpLoop]
  | cons t ts ih =>
    rw [tpLoop, ih, tpStep_orderIdx, List.countP_cons]
    by_cases h : tpFires risk inp t <;> simp [h] <;> omega

theorem tpStep_trace_mono (risk : RiskConfig) (m : Market) (inp : TickInput)
    (acc : TpAcc) (t : TradeLog) (a : Action) (ha : a ∈ acc.trace) :
    a ∈ (tpStep risk m inp acc t).trace := by
  by_cases h : tpFires risk inp t
  · rcases hr : inp.orderResult acc.orderIdx with _ | msg
    · rw [tpStep_of_fires_ok risk m inp acc t h hr]
      exact List.mem_append_left _ ha
    · rw [tpStep_of_fires_err risk m inp acc t h msg hr]
      exact List.mem_append_left _ ha
  · rw [tpStep_of_not_fires risk m inp acc t h]
    exact ha

theorem tpLoop_trace_mono (risk : RiskConfig) (m : Market) (inp : TickInput)
    (ts : List TradeLog) (acc : TpAcc) (a : Action) (ha : a ∈ acc.trace) :
    a ∈ (tpLoop risk m inp ts acc).trace := by
  induction ts generalizing acc with
  | nil => exact ha
  | cons t ts ih => exact ih _ (tpStep_trace_mono risk m inp acc t a ha)

/-- Actions that the take-profit phase may emit: only SELL submissions,
lock transitions, and take-profit or prologue log events — never a BUY
submission nor any entry-phase event (`alphaAnalysis`, `buyLimitReached`,
`opportunityFound`, `orderConfirmed`, `authError`, `entryFailed`). -/
def tpSafe : Action → Bool
  | .submit o => decide (o.side = .SELL)
  | .log .orderConfirmed => false
  | .log .authError => false
  | .log (.entryFailed _) => false
  | .log (.alphaAnalysis _ _ _) => false
  | .log (.buyLimitReached _ _) => false
  | .log (.opportunityFound _ _ _) => false
  | _ => true

theorem tpStep_safe (risk : RiskConfig) (m : Market) (inp : TickInput)
    (acc : TpAcc) (t : TradeLog) (hacc : ∀ a ∈ acc.trace, tpSafe a = true) :
    ∀ a ∈ (tpStep risk m inp acc t).trace, tpSafe a = true := by
  by_cases h : tpFires risk inp t
  · rcases hr : inp.orderResult acc.orderIdx with _ | msg
    · rw [tpStep_of_fires_ok risk m inp acc t h hr]
      intro a ha
      rcases List.mem_append.1 ha with h' | h'
      · exact hacc a h'
      · simp only [List.mem_cons, List.not_mem_nil, or_false] at h'
        rcases h' with rfl | rfl | rfl | rfl | rfl <;> simp [tpSafe, tpOrder]
    · rw [tpStep_of_fires_err risk m inp acc t h msg hr]
      intro a ha
      rcases List.mem_append.1 ha with h' | h'
      · exact hacc a h'
      · simp only [List.mem_cons, List.not_mem_nil, or_false] at h'
        rcases h' with rfl | rfl | rfl | rfl | rfl <;> simp [tpSafe, tpOrder]
  · rw [tpStep_of_not_fires risk m inp acc t h]
    exact hacc

theorem tpLoop_safe (risk : RiskConfig) (m : Market) (inp : TickInput)
    (ts : List TradeLog) (acc : TpAcc) (hacc : ∀ a ∈ acc.trace, tpSafe a = true) :
    ∀ a ∈ (tpLoop risk m inp ts acc).trace, tpSafe a = true := by
  induction ts generalizing acc with
  | nil => exact hacc
  | cons t ts ih => exact ih _ (tpStep_safe risk m inp acc t hacc)

/-- Well-formed locking discipline of a trace, starting from the given
lock state: the processing lock is never acquired twice or released while
free, every order submission happens while the lock is held, and the
trace ends with the lock free. -/
def lockedOk : Bool → List Action → Bool
  | locked, [] => !locked
  | false, .lockAcquire :: rest => lockedOk true rest
  | false, .lockRelease :: _ => false
  | false, .submit _ :: _ => false
  | false, .log _ :: rest => lockedOk false rest
  | true, .lockAcquire :: _ => false
  | true, .lockRelease :: rest => lockedOk false rest
  | true, .submit _ :: rest => lockedOk true rest
  | true, .log _ :: rest => lockedOk true rest

theorem lockedOk_append (xs : List Action) : ∀ (b : Bool) (ys : List Action),
    lockedOk b xs = true → lockedOk false ys = true → lockedOk b (xs ++ ys) = true := by
  induction xs with
  | nil =>
    intro b ys hx hy
    cases b with
    | false => exact hy
    | true => exact absurd hx (by simp [lockedOk])
  | cons a xs ih =>
    intro b ys hx hy
    cases b with
    | false =>
      cases a with
      | lockAcquire => exact ih true ys hx hy
      | lockRelease => exact absurd hx (by simp [lockedOk])
      | submit o => exact absurd hx (by simp [lockedOk])
      | log e => exact ih false ys hx hy
    | true =>
      cases a with
      | lockAcquire => exact absurd hx (by simp [lockedOk])
      | lockRelease => exact ih false ys hx hy
      | submit o => exact ih true ys hx hy
      | log e => exact ih true ys hx hy

/-! ## Ledger lemmas -/

/-- The ids of the ledger entries. -/
def logIds (logs : List TradeLog) : List String :=
  logs.map (fun l => l.id)

/-- Lookup of a ledger entry by id (first match). -/
def findById (logs : List TradeLog) (qid : String) : Option TradeLog :=
  logs.find? fun l => decide (l.id = qid)

theorem findById_setStatus_ne (logs : List TradeLog) (tid : String) (s : TradeStatus)
    (qid : String) (h : tid ≠ qid) :
    findById (setStatus tid s logs) qid = findById logs qid := by
  induction logs with
  | nil => rfl
  | cons l logs ih =>
    simp only [setStatus, List.map_cons, findById] at ih ⊢
    by_cases hl : l.id = tid
    · have hid : ¬ l.id = qid := by rw [hl]; exact h
      rw [if_pos hl, List.find?_cons_of_neg _ (by simp [hid]),
        List.find?_cons_of_neg _ (by simp [hid])]
      exact ih
    · rw [if_neg hl]
      by_cases hq : l.id = qid
      · rw [List.find?_cons_of_pos _ (by simp [hq]), List.find?_cons_of_pos _ (by simp [hq])]
      · rw [List.find?_cons_of_neg _ (by simp [hq]), List.find?_cons_of_neg _ (by simp [hq])]
        exact ih

theorem findById_setStatus_self (logs : List TradeLog) (qid : String) (s : TradeStatus) :
    findById (setStatus qid s logs) qid =
      (findById logs qid).map (fun l => { l with status := s }) := by
  induction logs with
  | nil => rfl
  | cons l logs ih =>
    simp only [setStatus, List.map_cons, findById] at ih ⊢
    by_cases hl : l.id = qid
    · rw [if_pos hl, List.find?_cons_of_pos _ (by simp [hl]),
        List.find?_cons_of_pos _ (by simp [hl])]
      rfl
    · rw [if_neg hl, List.find?_cons_of_neg _ (by simp [hl]),
        List.find?_cons_of_neg _ (by simp [hl])]
      exact ih

theorem findById_of_mem_nodup (logs : List TradeLog) (t : TradeLog)
    (hnd : (logIds logs).Nodup) (hm : t ∈ logs) : findById logs t.id = some t := by
  induction logs with
  | nil => cases hm
  | cons l logs ih =>
    simp only [logIds, List.map_cons, List.nodup_cons] at hnd
    rcases List.mem_cons.1 hm with rfl | hm'
    · exact List.find?_cons_of_pos _ (by simp)
    · have hne : ¬ l.id = t.id := by
        intro he
        exact hnd.1 (he ▸ List.mem_map_of_mem (fun x => x.id) hm')
      rw [findById, List.find?_cons_of_neg _ (by simp [hne])]
      exact ih hnd.2 hm'

theorem findById_append_of_some (xs ys : List TradeLog) (qid : String) (v : TradeLog)
    (h : findById xs qid = some v) : findById (xs ++ ys) qid = some v := by
  induction xs with
  | nil => exact absurd h (by simp [findById])
  | cons l xs ih =>
    simp only [findById, List.cons_append] at h ⊢
    by_cases hl : l.id = qid
    · rwa [List.find?_cons_of_pos _ (by simp [hl])] at h ⊢
    · rw [List.find?_cons_of_neg _ (by simp [hl])] at h ⊢
      exact ih h

theorem logIds_setStatus (logs : List TradeLog) (tid : String) (s : TradeStatus) :
    logIds (setStatus tid s logs) = logIds logs := by
  induction logs with
  | nil => rfl
  | cons l logs ih =>
    simp only [setStatus, logIds, List.map_cons] at ih ⊢
    by_cases hl : l.id = tid
    · rw [if_pos hl, ih]
    · rw [if_neg hl, ih]

theorem setStatus_length (logs : List TradeLog) (tid : String) (s : TradeStatus) :
    (setStatus tid s logs).length = logs.length :=
  List.length_map _ _

theorem buyCount_setStatus (logs : List TradeLog) (tid : String) (s : TradeStatus)
    (mid : String) : buyCount (setStatus tid s logs) mid = buyCount logs mid := by
  induction logs with
  | nil => rfl
  | cons l logs ih =>
    simp only [setStatus, buyCount, List.map_cons, List.filter_cons] at ih ⊢
    by_cases hl : l.id = tid
    · rw [if_pos hl]
      by_cases hp : decide (l.marketId = mid) && decide (l.side = Side.BUY)
      · rw [if_pos hp, if_pos (by simpa using hp)]
        simp only [List.length_cons]
        rw [ih]
      · rw [if_neg hp, if_neg (by simpa using hp)]
        exact ih
    · rw [if_neg hl]
      by_cases hp : decide (l.marketId = mid) && decide (l.side = Side.BUY)
      · rw [if_pos hp, if_pos hp]
        simp only [List.length_cons]
        rw [ih]
      · rw [if_neg hp, if_neg hp]
        exact ih

/-- The shape of one take-profit step on the ledger: either untouched or a
single `setStatus` on the processed trade's id. -/
theorem tpStep_logs_shape (risk : RiskConfig) (m : Market) (inp : TickInput)
    (acc : TpAcc) (t : TradeLog) :
    (tpStep risk m inp acc t).logs = acc.logs ∨
    (tpStep risk m inp acc t).logs = setStatus t.id (tpNewStatus risk) acc.logs := by
  by_cases h : tpFires risk inp t
  · rcases hr : inp.orderResult acc.orderIdx with _ | msg
    · rw [tpStep_of_fires_ok risk m inp acc t h hr]
      exact Or.inr rfl
    · rw [tpStep_of_fires_err risk m inp acc t h msg hr]
      exact Or.inl rfl
  · rw [tpStep_of_not_fires risk m inp acc t h]
    exact Or.inl rfl

theorem tpLoop_findById_untouched (risk : RiskConfig) (m : Market) (inp : TickInput)
    (ts : List TradeLog) (acc : TpAcc) (qid : String) (h : ∀ t ∈ ts, t.id ≠ qid) :
    findById (tpLoop risk m inp ts acc).logs qid = findById acc.logs qid := by
  induction ts generalizing acc with
  | nil => rfl
  | cons t ts ih =>
    rw [tpLoop]
    rw [ih _ (fun t' ht' => h t' (List.mem_cons_of_mem t ht'))]
    rcases tpStep_logs_shape risk m inp acc t with hs | hs
    · rw [hs]
    · rw [hs, findById_setStatus_ne _ _ _ _ (h t (List.mem_cons_self t ts))]

theorem tpLoop_logIds (risk : RiskConfig) (m : Market) (inp : TickInput)
    (ts : List TradeLog) (acc : TpAcc) :
    logIds (tpLoop risk m inp ts acc).logs = logIds acc.logs := by
  induction ts generalizing acc with
  | nil => rfl
  | cons t ts ih =>
    rw [tpLoop, ih]
    rcases tpStep_logs_shape risk m inp acc t with hs | hs
    · rw [hs]
    · rw [hs, logIds_setStatus]

theorem tpLoop_logs_length (risk : RiskConfig) (m : Market) (inp : TickInput)
    (ts : List TradeLog) (acc : TpAcc) :
    (tpLoop risk m inp ts acc).logs.length = acc.logs.length := by
  have h := tpLoop_logIds risk m inp ts acc
  have h1 : (logIds (tpLoop risk m inp ts acc).logs).length = (logIds acc.logs).length := by
    rw [h]
  simpa [logIds] using h1

theorem tpLoop_buyCount (risk : RiskConfig) (m : Market) (inp : TickInput)
    (ts : List TradeLog) (acc : TpAcc) (mid : String) :
    buyCount (tpLoop risk m inp ts acc).logs mid = buyCount acc.logs mid := by
  induction ts generalizing acc with
  | nil => rfl
  | cons t ts ih =>
    rw [tpLoop, ih]
    rcases tpStep_logs_shape risk m inp acc t with hs | hs
    · rw [hs]
    · rw [hs, buyCount_setStatus]

/-! ## Unfolding lemmas for the tick -/

theorem runEngine_eq_body (risk : RiskConfig) (inp : TickInput) (st : EngineState)
    (m : Market) (hmkt : inp.market = some m) (hact : st.isActive = true)
    (hctx : inp.ctxOk = true) (hproc : st.processingTrade = false) :
    runEngine risk inp st = tickBody risk m inp st := by
  simp only [runEngine, hmkt]
  rw [if_neg (by simp [hact]), if_neg (by simp [hctx]), if_neg (by simp [hproc])]

theorem mem_openTrades (logs : List TradeLog) (mid : String) (t : TradeLog) :
    t ∈ openTrades logs mid ↔ t ∈ logs ∧ t.status = .OPEN ∧ t.marketId = mid := by
  simp [openTrades, List.mem_filter]

theorem openTrades_sublist (logs : List TradeLog) (mid : String) :
    List.Sublist (openTrades logs mid) logs :=
  List.filter_sublist _

theorem openTrades_ids_nodup (logs : List TradeLog) (mid : String)
    (h : (logIds logs).Nodup) : (logIds (openTrades logs mid)).Nodup := by
  have hs : List.Sublist (logIds (openTrades logs mid)) (logIds logs) :=
    List.Sublist.map (fun l : TradeLog => l.id) (openTrades_sublist logs mid)
  exact h.sublist hs

theorem eq_of_mem_ids_nodup (logs : List TradeLog) (l t : TradeLog)
    (hnd : (logIds logs).Nodup) (hl : l ∈ logs) (ht : t ∈ logs)
    (h : l.id = t.id) : l = t := by
  have h1 := findById_of_mem_nodup logs l hnd hl
  have h2 := findById_of_mem_nodup logs t hnd ht
  rw [h, h2] at h1
  exact (Option.some_injective _ h1).symm

/-! ## The TradeLog status machine -/

/-- The status transitions a single engine tick may perform on an existing
ledger entry: stay put, or move from `OPEN` to `PARTIAL` or `CLOSED`.
These are edges of the claimed machine
`OPEN → PARTIAL → CLOSED` / `OPEN → CLOSED`; in particular `CLOSED` and
`PARTIAL` are never left. -/
def allowedStep (a b : TradeStatus) : Prop :=
  a = b ∨ (a = .OPEN ∧ (b = .PARTIAL ∨ b = .CLOSED))

theorem allowedStep_refl (a : TradeStatus) : allowedStep a a := Or.inl rfl

theorem allowedStep_trans (a b c : TradeStatus) (h1 : allowedStep a b)
    (h2 : allowedStep b c) : allowedStep a c := by
  rcases h1 with rfl | ⟨ha, hb⟩
  · exact h2
  · rcases h2 with rfl | ⟨hb2, hc⟩
    · exact Or.inr ⟨ha, hb⟩
    · rcases hb with hb | hb <;> rw [hb] at hb2 <;> exact absurd hb2 (by decide)

/-- Two ledger entries that agree on everything except possibly the
status field. -/
def sameButStatus (a b : TradeLog) : Prop :=
  ({ a with status := .OPEN } : TradeLog) = { b with status := .OPEN }

theorem sameButStatus_trans (a b c : TradeLog) (h1 : sameButStatus a b)
    (h2 : sameButStatus b c) : sameButStatus a c :=
  h1.trans h2

theorem sameButStatus_setStatus (l : TradeLog) (s : TradeStatus) :
    sameButStatus l { l with status := s } := rfl

theorem tpNewStatus_partial_or_closed (risk : RiskConfig) :
    tpNewStatus risk = .PARTIAL ∨ tpNewStatus risk = .CLOSED := by
  rw [tpNewStatus]
  split_ifs
  · exact Or.inr rfl
  · exact Or.inl rfl

/-- Pointwise effect of the take-profit loop on the ledger: every entry is
preserved except that entries that were `OPEN` may move to the
take-profit status.  Requires that every id processed by the loop refers
only to `OPEN` entries, and that the processed trades have distinct ids. -/
theorem tpLoop_status_pointwise (risk : RiskConfig) (m : Market) (inp : TickInput)
    (ts : List TradeLog) (acc : TpAcc)
    (hopen : ∀ t ∈ ts, ∀ l ∈ acc.logs, l.id = t.id → l.status = .OPEN)
    (hnd : (logIds ts).Nodup) :
    ∀ (i : ℕ) (hi : i < acc.logs.length)
      (hj : i < (tpLoop risk m inp ts acc).logs.length),
      sameButStatus (acc.logs.get ⟨i, hi⟩) ((tpLoop risk m inp ts acc).logs.get ⟨i, hj⟩) ∧
      allowedStep (acc.logs.get ⟨i, hi⟩).status
        ((tpLoop risk m inp ts acc).logs.get ⟨i, hj⟩).status := by
  induction ts generalizing acc with
  | nil =>
    intro i hi hj
    exact ⟨rfl, allowedStep_refl _⟩
  | cons t ts ih =>
    intro i hi hj
    simp only [logIds, List.map_cons, List.nodup_cons] at hnd
    obtain ⟨hnotin, hndtail⟩ := hnd
    rcases tpStep_logs_shape risk m inp acc t with hs | hs
    · have hopen2 : ∀ t' ∈ ts, ∀ l ∈ (tpStep risk m inp acc t).logs,
          l.id = t'.id → l.status = .OPEN := by
        rw [hs]
        exact fun t' ht' => hopen t' (List.mem_cons_of_mem t ht')
      have hi2 : i < (tpStep risk m inp acc t).logs.length := by
        rw [hs]; exact hi
      have h2 := ih (tpStep risk m inp acc t) hopen2 hndtail i hi2 hj
      have hgets : acc.logs.get ⟨i, hi⟩ = (tpStep risk m inp acc t).logs.get ⟨i, hi2⟩ := by
        have := List.get_of_eq hs ⟨i, hi2⟩
        exact this.symm
      rw [hgets]
      exact h2
    · have hopen2 : ∀ t' ∈ ts, ∀ l ∈ (tpStep risk m inp acc t).logs,
          l.id = t'.id → l.status = .OPEN := by
        rw [hs]
        intro t' ht' l hl hid
        obtain ⟨l0, hl0, hfl⟩ := List.mem_map.1 hl
        by_cases h0 : l0.id = t.id
        · have hlid : l.id = t.id := by
            rw [← hfl, if_pos h0]
            exact h0
          have hne : t'.id ≠ t.id := fun he =>
            hnotin (he ▸ List.mem_map_of_mem (fun x => x.id) ht')
          exact absurd (hid.symm.trans hlid) hne
        · rw [← hfl, if_neg h0]
          rw [← hfl, if_neg h0] at hid
          exact hopen t' (List.mem_cons_of_mem t ht') l0 hl0 hid
      have hi2 : i < (tpStep risk m inp acc t).logs.length := by
        rw [hs, setStatus_length]; exact hi
      have h2 := ih (tpStep risk m inp acc t) hopen2 hndtail i hi2 hj
      have hstep_get : (tpStep risk m inp acc t).logs.get ⟨i, hi2⟩ =
          (if (acc.logs.get ⟨i, hi⟩).id = t.id
           then { acc.logs.get ⟨i, hi⟩ with status := tpNewStatus risk }
           else acc.logs.get ⟨i, hi⟩) := by
        have h3 := List.get_of_eq hs ⟨i, hi2⟩
        rw [h3]
        simp only [setStatus]
        rw [List.get_map]
      by_cases h0 : (acc.logs.get ⟨i, hi⟩).id = t.id
      · have hOPEN : (acc.logs.get ⟨i, hi⟩).status = .OPEN :=
          hopen t (List.mem_cons_self t ts) _ (acc.logs.get_mem _ _) h0
        have e1 : (tpStep risk m inp acc t).logs.get ⟨i, hi2⟩ =
            { acc.logs.get ⟨i, hi⟩ with status := tpNewStatus risk } := by
          rw [hstep_get, if_pos h0]
        rw [e1] at h2
        refine ⟨sameButStatus_trans _ _ _ (sameButStatus_setStatus _ _) h2.1,
                allowedStep_trans _ _ _ ?_ h2.2⟩
        exact Or.inr ⟨hOPEN, tpNewStatus_partial_or_closed risk⟩
      · have e1 : (tpStep risk m inp acc t).logs.get ⟨i, hi2⟩ = acc.logs.get ⟨i, hi⟩ := by
          rw [hstep_get, if_neg h0]
        rw [e1] at h2
        exact h2

/-! ## Unfolding the entry phase -/

/-- The alpha-analysis log entry of line 517. -/
def alphaEvent (inp : TickInput) : Action :=
  .log (.alphaAnalysis inp.modelProb (yesEdge inp.modelProb (jsOr inp.yesAskTop 1))
    (noEdge inp.modelProb (jsOr inp.noAskTop 1)))

/-- The BUY order submitted on entry (lines 546-558). -/
def entryOrder (risk : RiskConfig) (m : Market) (oc : Outcome) (p : ℚ) : Order :=
  { tokenId := if oc = .YES then m.yesTokenId else m.noTokenId,
    price := p + 0.01, size := risk.maxPositionSize / p, side := .BUY }

/-- The ledger entry appended after a confirmed BUY (lines 560-574). -/
def entryLog (risk : RiskConfig) (m : Market) (inp : TickInput) (oc : Outcome) (p : ℚ) :
    TradeLog :=
  { id := inp.freshId, timestamp := inp.now, marketId := m.id, question := m.question,
    outcome := oc, side := .BUY, entryPrice := p, size := risk.maxPositionSize / p,
    btcPriceAtEntry := inp.btcPrice, modelProb := inp.modelProb, marketProb := p * 100,
    volatilityAtEntry := inp.btcVol, status := .OPEN }

theorem entryPhase_of_none (risk : RiskConfig) (m : Market) (inp : TickInput)
    (st : EngineState) (acc : TpAcc)
    (hdec : entryDecision risk inp.modelProb (jsOr inp.yesAskTop 1) (jsOr inp.noAskTop 1) = none) :
    entryPhase risk m inp st acc =
      ({ st with logs := acc.logs }, acc.trace ++ [alphaEvent inp]) := by
  simp only [entryPhase, hdec, alphaEvent]

theorem entryPhase_of_limit (risk : RiskConfig) (m : Market) (inp : TickInput)
    (st : EngineState) (acc : TpAcc) (oc : Outcome) (p : ℚ)
    (hdec : entryDecision risk inp.modelProb (jsOr inp.yesAskTop 1) (jsOr inp.noAskTop 1) =
      some (oc, p))
    (hcnt : buyCount acc.logs m.id ≥ risk.maxBuyCountPerMarket) :
    entryPhase risk m inp st acc =
      ({ st with logs := acc.logs },
       acc.trace ++ [alphaEvent inp,
         .log (.buyLimitReached (buyCount acc.logs m.id) risk.maxBuyCountPerMarket)]) := by
  simp only [entryPhase, hdec, alphaEvent, if_pos hcnt, List.append_assoc,
    List.cons_append, List.nil_append]

theorem entryPhase_of_buy_ok (risk : RiskConfig) (m : Market) (inp : TickInput)
    (st : EngineState) (acc : TpAcc) (oc : Outcome) (p : ℚ)
    (hdec : entryDecision risk inp.modelProb (jsOr inp.yesAskTop 1) (jsOr inp.noAskTop 1) =
      some (oc, p))
    (hcnt : ¬ buyCount acc.logs m.id ≥ risk.maxBuyCountPerMarket)
    (hr : inp.orderResult acc.orderIdx = none) :
    entryPhase risk m inp st acc =
      ({ st with logs := acc.logs ++ [entryLog risk m inp oc p],
                 tradesCount := st.tradesCount + 1,
                 lastTradeTime := inp.now },
       acc.trace ++ [alphaEvent inp, .lockAcquire,
         .log (.opportunityFound oc p risk.maxPositionSize),
         .submit (entryOrder risk m oc p), .log .orderConfirmed, .lockRelease]) := by
  simp only [entryPhase, hdec, alphaEvent, if_neg hcnt, hr, entryOrder, entryLog,
    List.append_assoc, List.cons_append, List.nil_append]

theorem entryPhase_of_buy_err (risk : RiskConfig) (m : Market) (inp : TickInput)
    (st : EngineState) (acc : TpAcc) (oc : Outcome) (p : ℚ) (msg : List Char)
    (hdec : entryDecision risk inp.modelProb (jsOr inp.yesAskTop 1) (jsOr inp.noAskTop 1) =
      some (oc, p))
    (hcnt : ¬ buyCount acc.logs m.id ≥ risk.maxBuyCountPerMarket)
    (hr : inp.orderResult acc.orderIdx = some msg) :
    entryPhase risk m inp st acc =
      ({ st with logs := acc.logs },
       acc.trace ++ [alphaEvent inp, .lockAcquire,
         .log (.opportunityFound oc p risk.maxPositionSize),
         .submit (entryOrder risk m oc p),
         .log (if isAuthError msg then .authError else .entryFailed msg),
         .lockRelease]) := by
  simp only [entryPhase, hdec, alphaEvent, if_neg hcnt, hr, entryOrder,
    List.append_assoc, List.cons_append, List.nil_append]

theorem tickBody_of_cooldown (risk : RiskConfig) (m : Market) (inp : TickInput)
    (st : EngineState) (h : inp.now - st.lastTradeTime < COOLDOWN_MS) :
    tickBody risk m inp st =
      ({ st with logs := (tpPhase risk m inp st).logs }, (tpPhase risk m inp st).trace) := by
  simp only [tickBody, if_pos h]

theorem tickBody_of_nocooldown (risk : RiskConfig) (m : Market) (inp : TickInput)
    (st : EngineState) (h : ¬ inp.now - st.lastTradeTime < COOLDOWN_MS) :
    tickBody risk m inp st = entryPhase risk m inp st (tpPhase risk m inp st) := by
  simp only [tickBody, if_neg h]

/-- Whatever branch the entry phase takes, the ledger after the tick body
is the take-profit ledger plus an optional appended entry, and the trace
extends the take-profit trace. -/
theorem tickBody_shape (risk : RiskConfig) (m : Market) (inp : TickInput) (st : EngineState) :
    (∃ tail, (tickBody risk m inp st).1.logs = (tpPhase risk m inp st).logs ++ tail) ∧
    (∃ ext, (tickBody risk m inp st).2 = (tpPhase risk m inp st).trace ++ ext) := by
  by_cases hc : inp.now - st.lastTradeTime < COOLDOWN_MS
  · rw [tickBody_of_cooldown risk m inp st hc]
    exact ⟨⟨[], by simp⟩, ⟨[], by simp⟩⟩
  · rw [tickBody_of_nocooldown risk m inp st hc]
    rcases hdec : entryDecision risk inp.modelProb (jsOr inp.yesAskTop 1) (jsOr inp.noAskTop 1)
      with _ | ⟨oc, p⟩
    · rw [entryPhase_of_none risk m inp st _ hdec]
      exact ⟨⟨[], by simp⟩, ⟨_, rfl⟩⟩
    · by_cases hcnt : buyCount (tpPhase risk m inp st).logs m.id ≥ risk.maxBuyCountPerMarket
      · rw [entryPhase_of_limit risk m inp st _ oc p hdec hcnt]
        exact ⟨⟨[], by simp⟩, ⟨_, rfl⟩⟩
      · rcases hr : inp.orderResult (tpPhase risk m inp st).orderIdx with _ | msg
        · rw [entryPhase_of_buy_ok risk m inp st _ oc p hdec hcnt hr]
          exact ⟨⟨_, rfl⟩, ⟨_, rfl⟩⟩
        · rw [entryPhase_of_buy_err risk m inp st _ oc p msg hdec hcnt hr]
          exact ⟨⟨[], by simp⟩, ⟨_, rfl⟩⟩

/-! ## Trace utilities -/

/-- Recognizes a BUY submission in the trace. -/
def isBuySubmit : Action → Bool
  | .submit o => decide (o.side = .BUY)
  | _ => false

/-- Number of BUY submissions in a trace. -/
def buySubmitCount (tr : List Action) : ℕ :=
  (tr.filter isBuySubmit).length

theorem buySubmitCount_append (xs ys : List Action) :
    buySubmitCount (xs ++ ys) = buySubmitCount xs + buySubmitCount ys := by
  simp [buySubmitCount, List.filter_append]

theorem isBuySubmit_eq_false_of_tpSafe (a : Action) (h : tpSafe a = true) :
    isBuySubmit a = false := by
  cases a with
  | submit o =>
    simp only [tpSafe, decide_eq_true_eq] at h
    simp [isBuySubmit, h]
  | lockAcquire => rfl
  | lockRelease => rfl
  | log e => rfl

theorem buySubmitCount_eq_zero (tr : List Action) (h : ∀ a ∈ tr, tpSafe a = true) :
    buySubmitCount tr = 0 := by
  rw [buySubmitCount, List.length_eq_zero]
  rw [List.filter_eq_nil]
  intro a ha
  rw [isBuySubmit_eq_false_of_tpSafe a (h a ha)]
  simp

/-- The trace prologue plus the take-profit loop only emits
take-profit-safe actions. -/
theorem tpPhase_safe (risk : RiskConfig) (m : Market) (inp : TickInput) (st : EngineState) :
    ∀ a ∈ (tpPhase risk m inp st).trace, tpSafe a = true := by
  rw [tpPhase]
  refine tpLoop_safe risk m inp _ _ ?_
  intro a ha
  simp only [List.mem_append, List.mem_cons, List.not_mem_nil, or_false] at ha
  rcases ha with (rfl | rfl | rfl) | ha
  · rfl
  · rfl
  · rfl
  · split_ifs at ha with hlen
    · simp only [List.mem_cons, List.not_mem_nil, or_false] at ha
      rw [ha]
      rfl
    · cases ha

/-! ## Claims C7 and C8: the probability model and the volatility -/

/-- C7: for finite inputs with `current ≠ 0`, `lagged ≠ 0` and
`strike ≠ 0`, `calculateProbability` equals
`round(50 + 2*((current-lagged)/lagged*1000) + ((current-strike)/strike*1000))`
clamped to `[1, 99]`; `minutesToExpiry` and `volatility` do not affect the
result; and whenever `current = 0` or `lagged = 0` it returns 50. -/
theorem claim_C7_probability_formula (c s t v l : ℚ) :
    (c ≠ 0 → l ≠ 0 → s ≠ 0 →
      calculateProbability c s t v l = specProbFormula c s l) ∧
    (∀ t' v', calculateProbability c s t' v' l = calculateProbability c s t v l) ∧
    (c = 0 ∨ l = 0 → calculateProbability c s t v l = 50) := by
  refine ⟨fun hc hl _ => ?_, fun t' v' => rfl, fun h => ?_⟩
  · rw [calculateProbability, specProbFormula, if_neg (by tauto)]
    ring
  · rw [calculateProbability, if_pos h]

/-- Witness for C7 at concrete inputs. -/
theorem claim_C7_probability_formula_witness :
    calculateProbability 2 1 7 3 1 = specProbFormula 2 1 1 ∧
    calculateProbability 0 5 7 3 1 = 50 :=
  ⟨(claim_C7_probability_formula 2 1 7 3 1).1 (by norm_num) (by norm_num) (by norm_num),
   (claim_C7_probability_formula 0 5 7 3 1).2.2 (Or.inl rfl)⟩

/-- C8 counterexample: on the two-sample history `[0, 2]` the code returns
`max (√1) 1 = 1` (it divides the squared deviations by `N = 2`), while the
sample standard deviation (divisor `N - 1 = 1`) floored at 1.0 is
`√2 ≠ 1`.  So `volatility()` does not return the sample standard
deviation floored at 1.0. -/
theorem claim_C8_counterexample :
    calculateVolatility [0, 2] ≠ max (specSampleStdDev [0, 2]) 1 := by
  have hlt : (1 : ℝ) < Real.sqrt 2 := by
    rw [show (1 : ℝ) = Real.sqrt 1 from Real.sqrt_one.symm]
    exact Real.sqrt_lt_sqrt (by norm_num) (by norm_num)
  have hcode : calculateVolatility [0, 2] = 1 := by
    rw [calculateVolatility, if_neg (by norm_num)]
    have h : codeVariance [0, 2] = 1 := by
      norm_num [codeVariance, mean, List.sum_cons, List.sum_nil]
    rw [h]
    norm_num [Real.sqrt_one]
  have hvar : specSampleVariance [0, 2] = 2 := by
    norm_num [specSampleVariance, mean, List.sum_cons, List.sum_nil]
  have hspec : max (specSampleStdDev [0, 2]) 1 = Real.sqrt 2 := by
    rw [specSampleStdDev, hvar]
    push_cast
    exact max_eq_left hlt.le
  rw [hcode, hspec]
  exact fun hh => absurd hh.symm (ne_of_gt hlt)

/-- C8 amended: with at least 2 samples, `volatility()` returns the
*population* standard deviation (squared deviations divided by the number
of samples `N`, not `N - 1`) floored at 1.0, hence is always `≥ 1.0`;
with fewer than 2 samples it returns exactly 5.0. -/
theorem claim_C8_volatility (prices : List ℚ) :
    (2 ≤ prices.length →
      calculateVolatility prices = max (specPopulationStdDev prices) 1 ∧
      1 ≤ calculateVolatility prices) ∧
    (prices.length < 2 → calculateVolatility prices = 5) := by
  constructor
  · intro h2
    have hne : ¬ prices.length < 2 := not_lt.2 h2
    constructor
    · rw [calculateVolatility, if_neg hne, specPopulationStdDev, codeVariance]
    · rw [calculateVolatility, if_neg hne]
      exact le_max_right _ _
  · intro h2
    rw [calculateVolatility, if_pos h2]

/-- Witness for C8 amended, at a two-sample history and an empty one. -/
theorem claim_C8_volatility_witness :
    calculateVolatility [0, 2] = max (specPopulationStdDev [0, 2]) 1 ∧
    calculateVolatility [] = 5 :=
  ⟨((claim_C8_volatility [0, 2]).1 (by norm_num)).1,
   (claim_C8_volatility []).2 (by norm_num)⟩

/-! ## Claim C1: entry triggering, priority and mutual exclusivity -/

/-- The YES entry trigger as the claim states it. -/
def specYesTrigger (risk : RiskConfig) (modelProb bestYesAsk : ℚ) : Prop :=
  (risk.directionBias = .BOTH ∨ risk.directionBias = .YES_ONLY) ∧
  modelProb ≥ risk.minProbThreshold ∧
  (modelProb / 100 - bestYesAsk) * 100 ≥ risk.edgeThreshold

/-- The NO entry trigger as the claim states it. -/
def specNoTrigger (risk : RiskConfig) (modelProb bestNoAsk : ℚ) : Prop :=
  (risk.directionBias = .BOTH ∨ risk.directionBias = .NO_ONLY) ∧
  (100 - modelProb) ≥ risk.minProbThreshold ∧
  ((100 - modelProb) / 100 - bestNoAsk) * 100 ≥ risk.edgeThreshold

/-- At most one BUY submission per tick, whatever the inputs. -/
theorem runEngine_buy_le_one (risk : RiskConfig) (inp : TickInput) (st : EngineState) :
    buySubmitCount (runEngine risk inp st).2 ≤ 1 := by
  rcases hm : inp.market with _ | m
  · simp [runEngine, hm, buySubmitCount]
  · simp only [runEngine, hm]
    by_cases hact : st.isActive = false
    · rw [if_pos hact]
      simp [buySubmitCount]
    · rw [if_neg hact]
      by_cases hctx : inp.ctxOk = false
      · rw [if_pos hctx]
        simp [buySubmitCount, isBuySubmit, List.filter]
      · rw [if_neg hctx]
        by_cases hproc : st.processingTrade = true
        · rw [if_pos hproc]
          simp [buySubmitCount, isBuySubmit, List.filter]
        · rw [if_neg hproc]
          have htp : buySubmitCount (tpPhase risk m inp st).trace = 0 :=
            buySubmitCount_eq_zero _ (tpPhase_safe risk m inp st)
          by_cases hc : inp.now - st.lastTradeTime < COOLDOWN_MS
          · rw [tickBody_of_cooldown risk m inp st hc]
            rw [htp]
            omega
          · rw [tickBody_of_nocooldown risk m inp st hc]
            rcases hdec : entryDecision risk inp.modelProb (jsOr inp.yesAskTop 1)
                (jsOr inp.noAskTop 1) with _ | ⟨oc, p⟩
            · rw [entryPhase_of_none risk m inp st _ hdec, buySubmitCount_append, htp]
              simp [buySubmitCount, isBuySubmit, alphaEvent, List.filter]
            · by_cases hcnt : buyCount (tpPhase risk m inp st).logs m.id ≥
                  risk.maxBuyCountPerMarket
              · rw [entryPhase_of_limit risk m inp st _ oc p hdec hcnt,
                  buySubmitCount_append, htp]
                simp [buySubmitCount, isBuySubmit, alphaEvent, List.filter]
              · rcases hr : inp.orderResult (tpPhase risk m inp st).orderIdx with _ | msg
                · rw [entryPhase_of_buy_ok risk m inp st _ oc p hdec hcnt hr,
                    buySubmitCount_append, htp]
                  simp [buySubmitCount, isBuySubmit, alphaEvent, entryOrder, List.filter]
                · rw [entryPhase_of_buy_err risk m inp st _ oc p msg hdec hcnt hr,
                    buySubmitCount_append, htp]
                  simp [buySubmitCount, isBuySubmit, alphaEvent, entryOrder, List.filter]

/-- C1: entry candidate selection.  YES is chosen exactly under the
claimed YES trigger; NO is chosen exactly when YES does not trigger and
the claimed NO trigger holds; no candidate otherwise; and a tick submits
at most one BUY order, so the two sides can never both fire. -/
theorem claim_C1_entry_trigger (risk : RiskConfig) (mp ya na : ℚ) :
    (entryDecision risk mp ya na = some (.YES, ya) ↔ specYesTrigger risk mp ya) ∧
    (entryDecision risk mp ya na = some (.NO, na) ↔
      ¬ specYesTrigger risk mp ya ∧ specNoTrigger risk mp na) ∧
    (entryDecision risk mp ya na = none ↔
      ¬ specYesTrigger risk mp ya ∧ ¬ specNoTrigger risk mp na) ∧
    (∀ inp st, buySubmitCount (runEngine risk inp st).2 ≤ 1) := by
  have hY : ((risk.directionBias = .BOTH ∨ risk.directionBias = .YES_ONLY) ∧
      mp ≥ risk.minProbThreshold ∧ yesEdge mp ya ≥ risk.edgeThreshold) ↔
      specYesTrigger risk mp ya := by
    rw [specYesTrigger, yesEdge]
  have hN : ((risk.directionBias = .BOTH ∨ risk.directionBias = .NO_ONLY) ∧
      (100 - mp) ≥ risk.minProbThreshold ∧ noEdge mp na ≥ risk.edgeThreshold) ↔
      specNoTrigger risk mp na := by
    rw [specNoTrigger, noEdge]
  refine ⟨?_, ?_, ?_, fun inp st => runEngine_buy_le_one risk inp st⟩ <;>
    by_cases hy : specYesTrigger risk mp ya
  · rw [entryDecision, if_pos (hY.mpr hy)]
    simp [hy]
  · rw [entryDecision, if_neg (fun c => hy (hY.mp c))]
    by_cases hn : specNoTrigger risk mp na
    · rw [if_pos (hN.mpr hn)]
      simp [hy]
    · rw [if_neg (fun c => hn (hN.mp c))]
      simp [hy]
  · rw [entryDecision, if_pos (hY.mpr hy)]
    simp [hy]
  · rw [entryDecision, if_neg (fun c => hy (hY.mp c))]
    by_cases hn : specNoTrigger risk mp na
    · rw [if_pos (hN.mpr hn)]
      simp [hy, hn]
    · rw [if_neg (fun c => hn (hN.mp c))]
      simp [hy, hn]
  · rw [entryDecision, if_pos (hY.mpr hy)]
    simp [hy]
  · rw [entryDecision, if_neg (fun c => hy (hY.mp c))]
    by_cases hn : specNoTrigger risk mp na
    · rw [if_pos (hN.mpr hn)]
      simp [hy, hn]
    · rw [if_neg (fun c => hn (hN.mp c))]
      simp [hy, hn]

/-! ## Claim C4: the processing lock -/

theorem tpLoop_lockedOk (risk : RiskConfig) (m : Market) (inp : TickInput)
    (ts : List TradeLog) (acc : TpAcc) (h : lockedOk false acc.trace = true) :
    lockedOk false (tpLoop risk m inp ts acc).trace = true := by
  induction ts generalizing acc with
  | nil => exact h
  | cons t ts ih =>
    refine ih _ ?_
    by_cases hf : tpFires risk inp t
    · rcases hr : inp.orderResult acc.orderIdx with _ | msg
      · rw [tpStep_of_fires_ok risk m inp acc t hf hr]
        exact lockedOk_append _ false _ h rfl
      · rw [tpStep_of_fires_err risk m inp acc t hf msg hr]
        exact lockedOk_append _ false _ h rfl
    · rw [tpStep_of_not_fires risk m inp acc t hf]
      exact h

theorem tpPhase_lockedOk (risk : RiskConfig) (m : Market) (inp : TickInput)
    (st : EngineState) : lockedOk false (tpPhase risk m inp st).trace = true := by
  rw [tpPhase]
  refine tpLoop_lockedOk risk m inp _ _ ?_
  split_ifs <;> rfl

theorem tickBody_lockedOk (risk : RiskConfig) (m : Market) (inp : TickInput)
    (st : EngineState) : lockedOk false (tickBody risk m inp st).2 = true := by
  have htp := tpPhase_lockedOk risk m inp st
  by_cases hc : inp.now - st.lastTradeTime < COOLDOWN_MS
  · rw [tickBody_of_cooldown risk m inp st hc]
    exact htp
  · rw [tickBody_of_nocooldown risk m inp st hc]
    rcases hdec : entryDecision risk inp.modelProb (jsOr inp.yesAskTop 1)
        (jsOr inp.noAskTop 1) with _ | ⟨oc, p⟩
    · rw [entryPhase_of_none risk m inp st _ hdec]
      exact lockedOk_append _ false _ htp rfl
    · by_cases hcnt : buyCount (tpPhase risk m inp st).logs m.id ≥ risk.maxBuyCountPerMarket
      · rw [entryPhase_of_limit risk m inp st _ oc p hdec hcnt]
        exact lockedOk_append _ false _ htp rfl
      · rcases hr : inp.orderResult (tpPhase risk m inp st).orderIdx with _ | msg
        · rw [entryPhase_of_buy_ok risk m inp st _ oc p hdec hcnt hr]
          exact lockedOk_append _ false _ htp rfl
        · rw [entryPhase_of_buy_err risk m inp st _ oc p msg hdec hcnt hr]
          exact lockedOk_append _ false _ htp rfl

/-- C4: if the processing-lock flag is set when a tick fires, the entire
tick is a no-op apart from the skip log entry; and in every tick's trace
the lock is acquired before each order submission and released afterwards,
with lock windows never nested (at most one submission sequence in
flight) and the lock free again at the end of the tick. -/
theorem claim_C4_processing_lock (risk : RiskConfig) (inp : TickInput) (st : EngineState)
    (m : Market) :
    (st.processingTrade = true → st.isActive = true → inp.market = some m →
      inp.ctxOk = true → runEngine risk inp st = (st, [.log .skipProcessing])) ∧
    lockedOk false (runEngine risk inp st).2 = true := by
  constructor
  · intro hproc hact hmkt hctx
    simp only [runEngine, hmkt]
    rw [if_neg (by simp [hact]), if_neg (by simp [hctx]), if_pos hproc]
  · rcases hm : inp.market with _ | m2
    · simp [runEngine, hm, lockedOk]
    · simp only [runEngine, hm]
      by_cases hact : st.isActive = false
      · rw [if_pos hact]
        rfl
      · rw [if_neg hact]
        by_cases hctx : inp.ctxOk = false
        · rw [if_pos hctx]
          rfl
        · rw [if_neg hctx]
          by_cases hproc : st.processingTrade = true
          · rw [if_pos hproc]
            rfl
          · rw [if_neg hproc]
            exact tickBody_lockedOk risk m2 inp st

/-! ## Concrete fixtures for witnesses -/

def mkt0 : Market :=
  { id := "m", question := "q", yesTokenId := "y", noTokenId := "n" }

def risk0 : RiskConfig :=
  { maxPositionSize := 10, edgeThreshold := 3, maxTradesPerSeries := 5,
    volatilityLookback := 60, minProbThreshold := 80, takeProfitPct := 20,
    sellAmountPct := 100, directionBias := .BOTH, maxBuyCountPerMarket := 3 }

def input0 : TickInput :=
  { now := 1000000, market := some mkt0, ctxOk := true,
    yesAskTop := some 1, noAskTop := some 1, yesBidTop := some 1, noBidTop := some 1,
    modelProb := 50, btcPrice := 50000, btcVol := 5, freshId := "f1",
    orderResult := fun _ => none }

def state0 : EngineState :=
  { isActive := true, logs := [], tradesCount := 0, lastTradeTime := 0,
    processingTrade := false }

/-- Witness for C4: a locked tick is skipped, and a concrete tick trace is
well-locked. -/
theorem claim_C4_processing_lock_witness :
    runEngine risk0 input0 { state0 with processingTrade := true } =
      ({ state0 with processingTrade := true }, [.log .skipProcessing]) ∧
    lockedOk false (runEngine risk0 input0 state0).2 = true :=
  ⟨(claim_C4_processing_lock risk0 input0 { state0 with processingTrade := true } mkt0).1
      rfl rfl rfl rfl,
   (claim_C4_processing_lock risk0 input0 state0 mkt0).2⟩

/-! ## Claim C5: the cooldown gate -/

/-- C5: within 15 seconds of the last trade, the tick is exactly the
take-profit phase — its ledger updates and trace are kept, the cooldown
reference and counters are untouched — and no BUY order is submitted. -/
theorem claim_C5_cooldown (risk : RiskConfig) (inp : TickInput) (st : EngineState)
    (m : Market) (hmkt : inp.market = some m) (hact : st.isActive = true)
    (hctx : inp.ctxOk = true) (hproc : st.processingTrade = false)
    (hcool : inp.now - st.lastTradeTime < COOLDOWN_MS) :
    runEngine risk inp st =
      ({ st with logs := (tpPhase risk m inp st).logs }, (tpPhase risk m inp st).trace) ∧
    (∀ a ∈ (runEngine risk inp st).2, isBuySubmit a = false) := by
  have h1 : runEngine risk inp st = tickBody risk m inp st :=
    runEngine_eq_body risk inp st m hmkt hact hctx hproc
  rw [h1, tickBody_of_cooldown risk m inp st hcool]
  refine ⟨rfl, ?_⟩
  intro a ha
  exact isBuySubmit_eq_false_of_tpSafe a (tpPhase_safe risk m inp st a ha)

/-- Witness for C5 at a concrete tick 1 second after the last trade. -/
theorem claim_C5_cooldown_witness :
    runEngine risk0 { input0 with now := 1000 } state0 =
      ({ state0 with logs := (tpPhase risk0 mkt0 { input0 with now := 1000 } state0).logs },
       (tpPhase risk0 mkt0 { input0 with now := 1000 } state0).trace) ∧
    (∀ a ∈ (runEngine risk0 { input0 with now := 1000 } state0).2, isBuySubmit a = false) :=
  claim_C5_cooldown risk0 { input0 with now := 1000 } state0 mkt0 rfl rfl rfl rfl
    (by decide)

/-! ## Claim C3: the per-market buy-count limit -/

theorem buyCount_append (xs ys : List TradeLog) (mid : String) :
    buyCount (xs ++ ys) mid = buyCount xs mid + buyCount ys mid := by
  simp [buyCount, List.filter_append]

theorem tpPhase_buyCount (risk : RiskConfig) (m : Market) (inp : TickInput)
    (st : EngineState) (mid : String) :
    buyCount (tpPhase risk m inp st).logs mid = buyCount st.logs mid := by
  rw [tpPhase, tpLoop_buyCount]

/-- The cumulative BUY count of a market never decreases across a tick. -/
theorem runEngine_buyCount_mono (risk : RiskConfig) (inp : TickInput) (st : EngineState)
    (mid : String) :
    buyCount st.logs mid ≤ buyCount (runEngine risk inp st).1.logs mid := by
  rcases hm : inp.market with _ | m
  · simp only [runEngine, hm]
    exact Nat.le_refl _
  · simp only [runEngine, hm]
    by_cases hact : st.isActive = false
    · rw [if_pos hact]
    · rw [if_neg hact]
      by_cases hctx : inp.ctxOk = false
      · rw [if_pos hctx]
      · rw [if_neg hctx]
        by_cases hproc : st.processingTrade = true
        · rw [if_pos hproc]
        · rw [if_neg hproc]
          obtain ⟨tail, htail⟩ := (tickBody_shape risk m inp st).1
          rw [htail, buyCount_append, tpPhase_buyCount]
          omega

/-- C3: when an entry side triggers but the cumulative BUY count of the
market (over all statuses, by construction of `buyCount`) has reached
`maxBuyCountPerMarket`, the tick submits no BUY, logs the limit warning,
does not evaluate the other side (no entry action at all happens), and
leaves ledger count, trade counter and cooldown reference unchanged; and
the BUY count never decreases across any tick. -/
theorem claim_C3_buy_limit (risk : RiskConfig) (inp : TickInput) (st : EngineState)
    (m : Market) (oc : Outcome) (p : ℚ)
    (hmkt : inp.market = some m) (hact : st.isActive = true)
    (hctx : inp.ctxOk = true) (hproc : st.processingTrade = false)
    (hcool : ¬ inp.now - st.lastTradeTime < COOLDOWN_MS)
    (hdec : entryDecision risk inp.modelProb (jsOr inp.yesAskTop 1) (jsOr inp.noAskTop 1) =
      some (oc, p))
    (hcnt : buyCount st.logs m.id ≥ risk.maxBuyCountPerMarket) :
    (∀ a ∈ (runEngine risk inp st).2, isBuySubmit a = false) ∧
    .log (.buyLimitReached (buyCount st.logs m.id) risk.maxBuyCountPerMarket) ∈
      (runEngine risk inp st).2 ∧
    buyCount (runEngine risk inp st).1.logs m.id = buyCount st.logs m.id ∧
    (runEngine risk inp st).1.tradesCount = st.tradesCount ∧
    (runEngine risk inp st).1.lastTradeTime = st.lastTradeTime ∧
    (∀ inp2 st2, buyCount st2.logs m.id ≤ buyCount (runEngine risk inp2 st2).1.logs m.id) := by
  have hbc := tpPhase_buyCount risk m inp st m.id
  have hcnt2 : buyCount (tpPhase risk m inp st).logs m.id ≥ risk.maxBuyCountPerMarket := by
    rw [hbc]
    exact hcnt
  rw [runEngine_eq_body risk inp st m hmkt hact hctx hproc,
    tickBody_of_nocooldown risk m inp st hcool,
    entryPhase_of_limit risk m inp st _ oc p hdec hcnt2]
  refine ⟨?_, ?_, ?_, rfl, rfl, fun inp2 st2 => runEngine_buyCount_mono risk inp2 st2 m.id⟩
  · intro a ha
    rcases List.mem_append.1 ha with h1 | h1
    · exact isBuySubmit_eq_false_of_tpSafe a (tpPhase_safe risk m inp st a h1)
    · simp only [List.mem_cons, List.not_mem_nil, or_false] at h1
      rcases h1 with rfl | rfl
      · rfl
      · rfl
  · rw [hbc]
    exact List.mem_append_right _ (by simp)
  · rw [hbc]

/-- A closed BUY ledger entry for witnesses: closed positions still count
against the buy limit. -/
def tlog3 (i : String) : TradeLog :=
  { id := i, timestamp := 0, marketId := "m", question := "q", outcome := .YES,
    side := .BUY, entryPrice := 1, size := 10, btcPriceAtEntry := 50000,
    modelProb := 85, marketProb := 50, volatilityAtEntry := 5, status := .CLOSED }

def state3 : EngineState :=
  { state0 with logs := [tlog3 "a", tlog3 "b", tlog3 "c"] }

def input3 : TickInput :=
  { input0 with yesAskTop := some 0.78, modelProb := 85 }

/-- Witness for C3: three closed BUY entries exhaust a limit of 3, so a
triggering YES entry is skipped with the warning. -/
theorem claim_C3_buy_limit_witness :
    (∀ a ∈ (runEngine risk0 input3 state3).2, isBuySubmit a = false) ∧
    .log (.buyLimitReached (buyCount state3.logs mkt0.id) risk0.maxBuyCountPerMarket) ∈
      (runEngine risk0 input3 state3).2 ∧
    buyCount (runEngine risk0 input3 state3).1.logs mkt0.id = buyCount state3.logs mkt0.id ∧
    (runEngine risk0 input3 state3).1.tradesCount = state3.tradesCount ∧
    (runEngine risk0 input3 state3).1.lastTradeTime = state3.lastTradeTime ∧
    (∀ inp2 st2, buyCount st2.logs mkt0.id ≤
      buyCount (runEngine risk0 inp2 st2).1.logs mkt0.id) :=
  claim_C3_buy_limit risk0 input3 state3 mkt0 .YES 0.78 rfl rfl rfl rfl
    (by decide) (by norm_num [entryDecision, yesEdge, jsOr, input3, input0, risk0])
    (by decide)

/-! ## Claim C10: the cooldown reference frame condition -/

theorem not_orderConfirmed_tpPhase (risk : RiskConfig) (m : Market) (inp : TickInput)
    (st : EngineState) : Action.log .orderConfirmed ∉ (tpPhase risk m inp st).trace := by
  intro h
  have := tpPhase_safe risk m inp st _ h
  simp [tpSafe] at this

/-- C10: `lastTradeTimestamp` is updated (to the tick's `now`) exactly
when the tick confirms an entry BUY; any tick without a confirmed BUY —
including every take-profit SELL, successful or failed, and every failed
BUY — leaves it unchanged. -/
theorem claim_C10_lastTradeTime_frame (risk : RiskConfig) (inp : TickInput)
    (st : EngineState) :
    (Action.log .orderConfirmed ∉ (runEngine risk inp st).2 →
      (runEngine risk inp st).1.lastTradeTime = st.lastTradeTime) ∧
    (Action.log .orderConfirmed ∈ (runEngine risk inp st).2 →
      (runEngine risk inp st).1.lastTradeTime = inp.now ∧
      ∃ o, Action.submit o ∈ (runEngine risk inp st).2 ∧ o.side = .BUY) := by
  rcases hm : inp.market with _ | m
  · simp only [runEngine, hm]
    exact ⟨fun _ => by trivial, fun h => absurd h (by simp)⟩
  · simp only [runEngine, hm]
    by_cases hact : st.isActive = false
    · rw [if_pos hact]
      exact ⟨fun _ => by trivial, fun h => absurd h (by simp)⟩
    · rw [if_neg hact]
      by_cases hctx : inp.ctxOk = false
      · rw [if_pos hctx]
        exact ⟨fun _ => by trivial, fun h => absurd h (by simp)⟩
      · rw [if_neg hctx]
        by_cases hproc : st.processingTrade = true
        · rw [if_pos hproc]
          exact ⟨fun _ => by trivial, fun h => absurd h (by simp)⟩
        · rw [if_neg hproc]
          by_cases hc : inp.now - st.lastTradeTime < COOLDOWN_MS
          · rw [tickBody_of_cooldown risk m inp st hc]
            exact ⟨fun _ => rfl,
              fun h => absurd h (not_orderConfirmed_tpPhase risk m inp st)⟩
          · rw [tickBody_of_nocooldown risk m inp st hc]
            rcases hdec : entryDecision risk inp.modelProb (jsOr inp.yesAskTop 1)
                (jsOr inp.noAskTop 1) with _ | ⟨oc, p⟩
            · rw [entryPhase_of_none risk m inp st _ hdec]
              refine ⟨fun _ => rfl, fun h => absurd h ?_⟩
              intro h
              rcases List.mem_append.1 h with h1 | h1
              · exact not_orderConfirmed_tpPhase risk m inp st h1
              · simp [alphaEvent] at h1
            · by_cases hcnt : buyCount (tpPhase risk m inp st).logs m.id ≥
                  risk.maxBuyCountPerMarket
              · rw [entryPhase_of_limit risk m inp st _ oc p hdec hcnt]
                refine ⟨fun _ => rfl, fun h => absurd h ?_⟩
                intro h
                rcases List.mem_append.1 h with h1 | h1
                · exact not_orderConfirmed_tpPhase risk m inp st h1
                · simp [alphaEvent] at h1
              · rcases hr : inp.orderResult (tpPhase risk m inp st).orderIdx with _ | msg
                · rw [entryPhase_of_buy_ok risk m inp st _ oc p hdec hcnt hr]
                  constructor
                  · intro h
                    exact absurd (List.mem_append_right _ (by simp)) h
                  · intro h
                    refine ⟨rfl, ⟨entryOrder risk m oc p, ?_, rfl⟩⟩
                    exact List.mem_append_right _ (by simp)
                · rw [entryPhase_of_buy_err risk m inp st _ oc p msg hdec hcnt hr]
                  refine ⟨fun _ => rfl, fun h => absurd h ?_⟩
                  intro h
                  rcases List.mem_append.1 h with h1 | h1
                  · exact not_orderConfirmed_tpPhase risk m inp st h1
                  · revert h1
                    split_ifs <;> simp [alphaEvent]

/-- Witness for C10 on a concrete skipped tick (inactive engine: no
confirmed BUY, so the cooldown reference is unchanged). -/
theorem claim_C10_lastTradeTime_frame_witness :
    (runEngine risk0 input0 { state0 with isActive := false }).1.lastTradeTime =
      ({ state0 with isActive := false } : EngineState).lastTradeTime :=
  (claim_C10_lastTradeTime_frame risk0 input0 { state0 with isActive := false }).1
    (by simp [runEngine, input0])

/-! ## Claim C2: take-profit exits -/

theorem logIds_append (xs ys : List TradeLog) :
    logIds (xs ++ ys) = logIds xs ++ logIds ys := by
  simp [logIds]

/-- C2: during a tick, every OPEN position of the selected market whose
side's best bid is positive and whose profit reaches the threshold gets a
SELL submitted at `bid - 0.01` for `size * sellAmountPct/100` of its
outcome token (`tpOrder`); if that sell (the k-th order of the tick,
where k counts the triggered positions before it) is confirmed, the
position's status becomes CLOSED when `sellAmountPct = 100` and PARTIAL
otherwise, and if it fails the status is unchanged and the failure is
logged.  The statement quantifies over an arbitrary decomposition
`pre ++ trade :: post` of the open positions and an arbitrary result
oracle, so positions after a failed sell are still processed. -/
theorem claim_C2_take_profit (risk : RiskConfig) (inp : TickInput) (st : EngineState)
    (m : Market) (trade : TradeLog) (pre post : List TradeLog)
    (hmkt : inp.market = some m) (hact : st.isActive = true) (hctx : inp.ctxOk = true)
    (hproc : st.processingTrade = false)
    (hnd : (logIds st.logs).Nodup)
    (hsplit : openTrades st.logs m.id = pre ++ trade :: post)
    (hbid : tpBid inp trade.outcome > 0)
    (hpnl : pnlPct (tpBid inp trade.outcome) trade.entryPrice ≥ risk.takeProfitPct) :
    Action.submit (tpOrder risk m inp trade) ∈ (runEngine risk inp st).2 ∧
    findById (runEngine risk inp st).1.logs trade.id =
      some { trade with status :=
        match inp.orderResult (pre.countP (fun t => decide (tpFires risk inp t))) with
        | none => tpNewStatus risk
        | some _ => .OPEN } ∧
    (inp.orderResult (pre.countP (fun t => decide (tpFires risk inp t))) = none →
      Action.log .tpExecuted ∈ (runEngine risk inp st).2) ∧
    (∀ msg, inp.orderResult (pre.countP (fun t => decide (tpFires risk inp t))) = some msg →
      Action.log (.tpFailed msg) ∈ (runEngine risk inp st).2) := by
  have hfires : tpFires risk inp trade := ⟨hbid, hpnl⟩
  have htmem0 : trade ∈ openTrades st.logs m.id := by
    rw [hsplit]
    exact List.mem_append_right _ (List.mem_cons_self trade post)
  obtain ⟨htmem, htOPEN, htmkt⟩ := (mem_openTrades st.logs m.id trade).1 htmem0
  have hndo := openTrades_ids_nodup st.logs m.id hnd
  rw [hsplit] at hndo
  have hndo2 : (logIds pre ++ trade.id :: logIds post).Nodup := by
    rw [logIds_append] at hndo
    simpa [logIds] using hndo
  have hpre : ∀ t ∈ pre, t.id ≠ trade.id := by
    intro t ht he
    have h1 : trade.id ∈ logIds pre := he ▸ List.mem_map_of_mem (fun x => x.id) ht
    exact (List.nodup_append.1 hndo2).2.2 h1 (List.mem_cons_self _ _)
  have hpost : ∀ t ∈ post, t.id ≠ trade.id := by
    intro t ht he
    have h1 : trade.id ∈ logIds post := he ▸ List.mem_map_of_mem (fun x => x.id) ht
    exact (List.nodup_cons.1 (List.nodup_append.1 hndo2).2.1).1 h1
  -- decompose the take-profit phase around `trade`
  set acc0 : TpAcc :=
    { logs := st.logs, orderIdx := 0,
      trace :=
        [.log .tickStart, .log .fetchingBooks,
         .log (.clobDepth (jsOr inp.yesAskTop 1) (jsOr inp.noAskTop 1))] ++
        (if (pre ++ trade :: post).length > 0
         then [.log (.checkingPositions (pre ++ trade :: post).length)] else []) }
    with hacc0
  have htp : tpPhase risk m inp st =
      tpLoop risk m inp post (tpStep risk m inp (tpLoop risk m inp pre acc0) trade) := by
    rw [tpPhase, hsplit, tpLoop_append]
    rfl
  set acc1 := tpLoop risk m inp pre acc0 with hacc1
  have hk : acc1.orderIdx = pre.countP (fun t => decide (tpFires risk inp t)) := by
    rw [hacc1, tpLoop_orderIdx]
    simp [hacc0]
  have hfind1 : findById acc1.logs trade.id = some trade := by
    rw [hacc1, tpLoop_findById_untouched risk m inp pre acc0 trade.id hpre]
    exact findById_of_mem_nodup st.logs trade hnd htmem
  have hbody : runEngine risk inp st = tickBody risk m inp st :=
    runEngine_eq_body risk inp st m hmkt hact hctx hproc
  obtain ⟨tail, htail⟩ := (tickBody_shape risk m inp st).1
  obtain ⟨ext, hext⟩ := (tickBody_shape risk m inp st).2
  rcases hr : inp.orderResult (pre.countP (fun t => decide (tpFires risk inp t)))
    with _ | msg
  · -- confirmed sell
    have hstep := tpStep_of_fires_ok risk m inp acc1 trade hfires (by rw [hk]; exact hr)
    have hsub : Action.submit (tpOrder risk m inp trade) ∈
        (tpStep risk m inp acc1 trade).trace := by
      rw [hstep]
      exact List.mem_append_right _ (by simp)
    have hexe : Action.log .tpExecuted ∈ (tpStep risk m inp acc1 trade).trace := by
      rw [hstep]
      exact List.mem_append_right _ (by simp)
    have hfind2 : findById (tpStep risk m inp acc1 trade).logs trade.id =
        some { trade with status := tpNewStatus risk } := by
      rw [hstep]
      show findById (setStatus trade.id (tpNewStatus risk) acc1.logs) trade.id = _
      rw [findById_setStatus_self, hfind1]
      rfl
    have hsubF : Action.submit (tpOrder risk m inp trade) ∈ (tpPhase risk m inp st).trace := by
      rw [htp]
      exact tpLoop_trace_mono risk m inp post _ _ hsub
    have hexeF : Action.log .tpExecuted ∈ (tpPhase risk m inp st).trace := by
      rw [htp]
      exact tpLoop_trace_mono risk m inp post _ _ hexe
    have hfindF : findById (tpPhase risk m inp st).logs trade.id =
        some { trade with status := tpNewStatus risk } := by
      rw [htp, tpLoop_findById_untouched risk m inp post _ trade.id hpost]
      exact hfind2
    rw [hbody]
    refine ⟨?_, ?_, fun _ => ?_, fun msg hmsg => absurd hmsg (by simp)⟩
    · rw [hext]
      exact List.mem_append_left _ hsubF
    · rw [htail]
      show findById ((tpPhase risk m inp st).logs ++ tail) trade.id =
        some { trade with status := tpNewStatus risk }
      exact findById_append_of_some _ _ _ _ hfindF
    · rw [hext]
      exact List.mem_append_left _ hexeF
  · -- failed sell
    have hstep := tpStep_of_fires_err risk m inp acc1 trade hfires msg (by rw [hk]; exact hr)
    have hsub : Action.submit (tpOrder risk m inp trade) ∈
        (tpStep risk m inp acc1 trade).trace := by
      rw [hstep]
      exact List.mem_append_right _ (by simp)
    have hfail : Action.log (.tpFailed msg) ∈ (tpStep risk m inp acc1 trade).trace := by
      rw [hstep]
      exact List.mem_append_right _ (by simp)
    have hfind2 : findById (tpStep risk m inp acc1 trade).logs trade.id = some trade := by
      rw [hstep]
      exact hfind1
    have hsubF : Action.submit (tpOrder risk m inp trade) ∈ (tpPhase risk m inp st).trace := by
      rw [htp]
      exact tpLoop_trace_mono risk m inp post _ _ hsub
    have hfailF : Action.log (.tpFailed msg) ∈ (tpPhase risk m inp st).trace := by
      rw [htp]
      exact tpLoop_trace_mono risk m inp post _ _ hfail
    have hfindF : findById (tpPhase risk m inp st).logs trade.id = some trade := by
      rw [htp, tpLoop_findById_untouched risk m inp post _ trade.id hpost]
      exact hfind2
    rw [hbody]
    refine ⟨?_, ?_, fun hnone => absurd hnone (by simp), fun msg2 hmsg2 => ?_⟩
    · rw [hext]
      exact List.mem_append_left _ hsubF
    · rw [htail]
      show findById ((tpPhase risk m inp st).logs ++ tail) trade.id =
        some { trade with status := TradeStatus.OPEN }
      have h5 : ({ trade with status := TradeStatus.OPEN } : TradeLog) = trade := by
        rw [← htOPEN]
      rw [h5]
      exact findById_append_of_some _ _ _ _ hfindF
    · have h6 : msg2 = msg := (Option.some_injective _ hmsg2.symm)
      rw [h6, hext]
      exact List.mem_append_left _ hfailF

/-- An open YES position at entry price 0.50 for witnesses. -/
def tradeW : TradeLog :=
  { id := "t1", timestamp := 0, marketId := "m", question := "q", outcome := .YES,
    side := .BUY, entryPrice := 0.5, size := 20, btcPriceAtEntry := 50000,
    modelProb := 85, marketProb := 50, volatilityAtEntry := 5, status := .OPEN }

def stateW : EngineState := { state0 with logs := [tradeW] }

/-- Tick input with a best YES bid of 0.61: `pnl = 22% ≥ 20%`. -/
def inputW : TickInput := { input0 with yesBidTop := some 0.61 }

/-- Witness for C2: the open position at 0.50 with bid 0.61 and
`takeProfitPct = 20` triggers a SELL; with `sellAmountPct = 100` and a
confirmed fill it is CLOSED. -/
theorem claim_C2_take_profit_witness :
    Action.submit (tpOrder risk0 mkt0 inputW tradeW) ∈ (runEngine risk0 inputW stateW).2 ∧
    findById (runEngine risk0 inputW stateW).1.logs tradeW.id =
      some { tradeW with status :=
        match inputW.orderResult (List.countP (fun t => decide (tpFires risk0 inputW t)) []) with
        | none => tpNewStatus risk0
        | some _ => .OPEN } ∧
    (inputW.orderResult (List.countP (fun t => decide (tpFires risk0 inputW t)) []) = none →
      Action.log .tpExecuted ∈ (runEngine risk0 inputW stateW).2) ∧
    (∀ msg,
      inputW.orderResult (List.countP (fun t => decide (tpFires risk0 inputW t)) []) =
        some msg →
      Action.log (.tpFailed msg) ∈ (runEngine risk0 inputW stateW).2) :=
  claim_C2_take_profit risk0 inputW stateW mkt0 tradeW [] [] rfl rfl rfl rfl
    (by decide) rfl
    (by norm_num [tpBid, jsOr, inputW, input0, tradeW])
    (by norm_num [pnlPct, tpBid, jsOr, inputW, input0, tradeW, risk0])

/-! ## Claim C9: error classification on order-submission failure -/

theorem containsSub_iff (hay needle : List Char) :
    containsSub hay needle = true ↔ ∃ s t, hay = s ++ needle ++ t := by
  rw [containsSub, List.any_eq_true]
  constructor
  · rintro ⟨tl, htl, hpref⟩
    obtain ⟨s, hs⟩ := (List.mem_tails _ _).1 htl
    obtain ⟨r, hr⟩ := List.isPrefixOf_iff_prefix.1 hpref
    exact ⟨s, r, by rw [← hs, ← hr, List.append_assoc]⟩
  · rintro ⟨s, t, rfl⟩
    refine ⟨needle ++ t, ?_, ?_⟩
    · exact (List.mem_tails _ _).2 ⟨s, (List.append_assoc s needle t).symm⟩
    · exact List.isPrefixOf_iff_prefix.2 (List.prefix_append needle t)

/-- Tick input whose order submissions are all rejected with message
`"401"`, over the open position of `stateW`. -/
def inputE : TickInput := { inputW with orderResult := fun _ => some "401".data }

/-- The accumulator state reached just before the take-profit step of
`inputE` over `stateW`. -/
def accE : TpAcc :=
  { logs := [tradeW], orderIdx := 0,
    trace := [.log .tickStart, .log .fetchingBooks, .log (.clobDepth 1 1),
              .log (.checkingPositions 1)] }

/-- C9 counterexample: a take-profit SELL rejected with message `"401"` —
an authorization-classifiable failure — is surfaced as-is
(`TP Execution Failed: ...`), with no authorization remediation guidance:
the classification of the claim is applied only to entry BUY failures. -/
theorem claim_C9_counterexample :
    isAuthError "401".data = true ∧
    Action.log (.tpFailed "401".data) ∈ (runEngine risk0 inputE stateW).2 ∧
    Action.log .authError ∉ (runEngine risk0 inputE stateW).2 := by
  have hfires : tpFires risk0 inputE tradeW := by
    constructor
    · norm_num [tpBid, jsOr, inputE, inputW, input0, tradeW]
    · norm_num [pnlPct, tpBid, jsOr, inputE, inputW, input0, tradeW, risk0]
  have e3 : tpPhase risk0 mkt0 inputE stateW = tpStep risk0 mkt0 inputE accE tradeW := rfl
  have e4 := tpStep_of_fires_err risk0 mkt0 inputE accE tradeW hfires "401".data rfl
  have e5 : entryDecision risk0 inputE.modelProb (jsOr inputE.yesAskTop 1)
      (jsOr inputE.noAskTop 1) = none := by
    norm_num [entryDecision, yesEdge, noEdge, jsOr, inputE, inputW, input0, risk0]
  have e6 : runEngine risk0 inputE stateW =
      ({ stateW with logs := (tpPhase risk0 mkt0 inputE stateW).logs },
       (tpPhase risk0 mkt0 inputE stateW).trace ++ [alphaEvent inputE]) := by
    rw [runEngine_eq_body risk0 inputE stateW mkt0 rfl rfl rfl rfl,
      tickBody_of_nocooldown risk0 mkt0 inputE stateW (by decide)]
    exact entryPhase_of_none risk0 mkt0 inputE stateW _ e5
  have etr : (runEngine risk0 inputE stateW).2 =
      (accE.trace ++
        [.lockAcquire,
         .log (.tpTriggeredMsg (pnlPct (tpBid inputE tradeW.outcome) tradeW.entryPrice)
           risk0.sellAmountPct),
         .submit (tpOrder risk0 mkt0 inputE tradeW), .log (.tpFailed "401".data),
         .lockRelease]) ++ [alphaEvent inputE] := by
    rw [e6]
    show (tpPhase risk0 mkt0 inputE stateW).trace ++ [alphaEvent inputE] = _
    rw [e3, e4]
  refine ⟨by decide, ?_, ?_⟩
  · rw [etr]
    simp
  · rw [etr]
    simp [accE, alphaEvent]

/-- C9 (amended): the classification of failure messages into
authorization errors (message containing `401`, or case-insensitively
`unauthorized` or `invalid api key`) applies to entry BUY submission
failures, which are surfaced with remediation guidance when
auth-classified and as-is otherwise; take-profit SELL failures are always
surfaced as-is; in all cases the triggering action is abandoned for the
tick (nothing recorded, nothing retried — at most one BUY submission) and
the engine remains active with the lock released. -/
theorem claim_C9_error_handling (risk : RiskConfig) (inp : TickInput) (st : EngineState)
    (m : Market) (oc : Outcome) (p : ℚ) (msg : List Char)
    (hmkt : inp.market = some m) (hact : st.isActive = true) (hctx : inp.ctxOk = true)
    (hproc : st.processingTrade = false)
    (hcool : ¬ inp.now - st.lastTradeTime < COOLDOWN_MS)
    (hdec : entryDecision risk inp.modelProb (jsOr inp.yesAskTop 1) (jsOr inp.noAskTop 1) =
      some (oc, p))
    (hcnt : buyCount st.logs m.id < risk.maxBuyCountPerMarket)
    (hr : inp.orderResult (tpPhase risk m inp st).orderIdx = some msg) :
    (isAuthError msg = true ↔
      ((∃ s t, lowerCase msg = s ++ "unauthorized".data ++ t) ∨
       (∃ s t, msg = s ++ "401".data ++ t) ∨
       (∃ s t, lowerCase msg = s ++ "invalid api key".data ++ t))) ∧
    (isAuthError msg = true →
      Action.log .authError ∈ (runEngine risk inp st).2 ∧
      Action.log (.entryFailed msg) ∉ (runEngine risk inp st).2) ∧
    (isAuthError msg = false →
      Action.log (.entryFailed msg) ∈ (runEngine risk inp st).2 ∧
      Action.log .authError ∉ (runEngine risk inp st).2) ∧
    (runEngine risk inp st).1.isActive = true ∧
    (runEngine risk inp st).1.lastTradeTime = st.lastTradeTime ∧
    (runEngine risk inp st).1.tradesCount = st.tradesCount ∧
    (runEngine risk inp st).1.logs.length = st.logs.length ∧
    (runEngine risk inp st).1.processingTrade = false ∧
    buySubmitCount (runEngine risk inp st).2 ≤ 1 ∧
    (∀ (trade : TradeLog) (pre2 post2 : List TradeLog) (msg2 : List Char),
      openTrades st.logs m.id = pre2 ++ trade :: post2 →
      tpBid inp trade.outcome > 0 →
      pnlPct (tpBid inp trade.outcome) trade.entryPrice ≥ risk.takeProfitPct →
      inp.orderResult (pre2.countP (fun t => decide (tpFires risk inp t))) = some msg2 →
      Action.log (.tpFailed msg2) ∈ (runEngine risk inp st).2) := by
  have hcnt2 : ¬ buyCount (tpPhase risk m inp st).logs m.id ≥ risk.maxBuyCountPerMarket := by
    rw [tpPhase_buyCount]
    exact not_le.mpr hcnt
  have heq : runEngine risk inp st =
      ({ st with logs := (tpPhase risk m inp st).logs },
       (tpPhase risk m inp st).trace ++ [alphaEvent inp, .lockAcquire,
         .log (.opportunityFound oc p risk.maxPositionSize), .submit (entryOrder risk m oc p),
         .log (if isAuthError msg then .authError else .entryFailed msg), .lockRelease]) := by
    rw [runEngine_eq_body risk inp st m hmkt hact hctx hproc,
      tickBody_of_nocooldown risk m inp st hcool,
      entryPhase_of_buy_err risk m inp st _ oc p msg hdec hcnt2 hr]
  refine ⟨?_, ?_, ?_, ?_, ?_, ?_, ?_, ?_, runEngine_buy_le_one risk inp st, ?_⟩
  · simp only [isAuthError, Bool.or_eq_true, containsSub_iff, or_assoc]
  · intro hA
    rw [heq]
    constructor
    · exact List.mem_append_right _ (by simp [hA])
    · intro hmem
      rcases List.mem_append.1 hmem with h1 | h1
      · have := tpPhase_safe risk m inp st _ h1
        simp [tpSafe] at this
      · simp only [hA, if_true, List.mem_cons, List.not_mem_nil, or_false] at h1
        rcases h1 with h1 | h1 | h1 | h1 | h1 | h1 <;> simp [alphaEvent] at h1
  · intro hA
    rw [heq]
    constructor
    · exact List.mem_append_right _ (by simp [hA])
    · intro hmem
      rcases List.mem_append.1 hmem with h1 | h1
      · have := tpPhase_safe risk m inp st _ h1
        simp [tpSafe] at this
      · simp only [hA, if_false, Bool.false_eq_true, List.mem_cons, List.not_mem_nil,
          or_false] at h1
        rcases h1 with h1 | h1 | h1 | h1 | h1 | h1 <;> simp [alphaEvent] at h1
  · rw [heq]
    exact hact
  · rw [heq]
  · rw [heq]
  · rw [heq]
    show (tpPhase risk m inp st).logs.length = st.logs.length
    rw [tpPhase, tpLoop_logs_length]
  · rw [heq]
    exact hproc
  · intro trade pre2 post2 msg2 hsplit2 hbid2 hpnl2 hr2
    have hfires2 : tpFires risk inp trade := ⟨hbid2, hpnl2⟩
    set acc9 : TpAcc :=
      { logs := st.logs, orderIdx := 0,
        trace :=
          [.log .tickStart, .log .fetchingBooks,
           .log (.clobDepth (jsOr inp.yesAskTop 1) (jsOr inp.noAskTop 1))] ++
          (if (pre2 ++ trade :: post2).length > 0
           then [.log (.checkingPositions (pre2 ++ trade :: post2).length)] else []) }
      with hacc9
    have htp2 : tpPhase risk m inp st =
        tpLoop risk m inp post2 (tpStep risk m inp (tpLoop risk m inp pre2 acc9) trade) := by
      rw [tpPhase, hsplit2, tpLoop_append]
      rfl
    have hk2 : (tpLoop risk m inp pre2 acc9).orderIdx =
        pre2.countP (fun t => decide (tpFires risk inp t)) := by
      rw [tpLoop_orderIdx]
      simp [hacc9]
    have hstep := tpStep_of_fires_err risk m inp (tpLoop risk m inp pre2 acc9) trade hfires2
      msg2 (by rw [hk2]; exact hr2)
    have hfail : Action.log (.tpFailed msg2) ∈ (tpPhase risk m inp st).trace := by
      rw [htp2]
      refine tpLoop_trace_mono risk m inp post2 _ _ ?_
      rw [hstep]
      exact List.mem_append_right _ (by simp)
    rw [heq]
    exact List.mem_append_left _ hfail

/-- Tick input triggering a YES entry whose BUY submission is rejected
with an auth-classifiable message. -/
def input9 : TickInput :=
  { input3 with orderResult := fun _ => some "Invalid API Key provided".data }

/-- Witness for C9 (amended) at a concrete rejected BUY. -/
theorem claim_C9_error_handling_witness :
    (isAuthError "Invalid API Key provided".data = true ↔
      ((∃ s t, lowerCase "Invalid API Key provided".data = s ++ "unauthorized".data ++ t) ∨
       (∃ s t, "Invalid API Key provided".data = s ++ "401".data ++ t) ∨
       (∃ s t, lowerCase "Invalid API Key provided".data =
         s ++ "invalid api key".data ++ t))) ∧
    (isAuthError "Invalid API Key provided".data = true →
      Action.log .authError ∈ (runEngine risk0 input9 state0).2 ∧
      Action.log (.entryFailed "Invalid API Key provided".data) ∉
        (runEngine risk0 input9 state0).2) ∧
    (isAuthError "Invalid API Key provided".data = false →
      Action.log (.entryFailed "Invalid API Key provided".data) ∈
        (runEngine risk0 input9 state0).2 ∧
      Action.log .authError ∉ (runEngine risk0 input9 state0).2) ∧
    (runEngine risk0 input9 state0).1.isActive = true ∧
    (runEngine risk0 input9 state0).1.lastTradeTime = state0.lastTradeTime ∧
    (runEngine risk0 input9 state0).1.tradesCount = state0.tradesCount ∧
    (runEngine risk0 input9 state0).1.logs.length = state0.logs.length ∧
    (runEngine risk0 input9 state0).1.processingTrade = false ∧
    buySubmitCount (runEngine risk0 input9 state0).2 ≤ 1 ∧
    (∀ (trade : TradeLog) (pre2 post2 : List TradeLog) (msg2 : List Char),
      openTrades state0.logs mkt0.id = pre2 ++ trade :: post2 →
      tpBid input9 trade.outcome > 0 →
      pnlPct (tpBid input9 trade.outcome) trade.entryPrice ≥ risk0.takeProfitPct →
      input9.orderResult (pre2.countP (fun t => decide (tpFires risk0 input9 t))) =
        some msg2 →
      Action.log (.tpFailed msg2) ∈ (runEngine risk0 input9 state0).2) :=
  claim_C9_error_handling risk0 input9 state0 mkt0 .YES 0.78
    "Invalid API Key provided".data rfl rfl rfl rfl (by decide)
    (by norm_num [entryDecision, yesEdge, jsOr, input9, input3, input0, risk0])
    (by decide) rfl

/-! ## Claim C6: the TradeLog status machine -/

theorem tickBody_logs_cases (risk : RiskConfig) (m : Market) (inp : TickInput)
    (st : EngineState) :
    (tickBody risk m inp st).1.logs = (tpPhase risk m inp st).logs ∨
    ∃ oc p, (tickBody risk m inp st).1.logs =
      (tpPhase risk m inp st).logs ++ [entryLog risk m inp oc p] := by
  by_cases hc : inp.now - st.lastTradeTime < COOLDOWN_MS
  · rw [tickBody_of_cooldown risk m inp st hc]
    exact Or.inl rfl
  · rw [tickBody_of_nocooldown risk m inp st hc]
    rcases hdec : entryDecision risk inp.modelProb (jsOr inp.yesAskTop 1)
        (jsOr inp.noAskTop 1) with _ | ⟨oc, p⟩
    · rw [entryPhase_of_none risk m inp st _ hdec]
      exact Or.inl rfl
    · by_cases hcnt : buyCount (tpPhase risk m inp st).logs m.id ≥ risk.maxBuyCountPerMarket
      · rw [entryPhase_of_limit risk m inp st _ oc p hdec hcnt]
        exact Or.inl rfl
      · rcases hr : inp.orderResult (tpPhase risk m inp st).orderIdx with _ | msg
        · rw [entryPhase_of_buy_ok risk m inp st _ oc p hdec hcnt hr]
          exact Or.inr ⟨oc, p, rfl⟩
        · rw [entryPhase_of_buy_err risk m inp st _ oc p msg hdec hcnt hr]
          exact Or.inl rfl

/-- Ledger ids after one tick: unchanged, or extended by the fresh id. -/
theorem runEngine_logIds (risk : RiskConfig) (inp : TickInput) (st : EngineState) :
    logIds (runEngine risk inp st).1.logs = logIds st.logs ∨
    logIds (runEngine risk inp st).1.logs = logIds st.logs ++ [inp.freshId] := by
  rcases hm : inp.market with _ | m
  · exact Or.inl (by simp only [runEngine, hm])
  · by_cases hact : st.isActive = false
    · exact Or.inl (by simp only [runEngine, hm]; rw [if_pos hact])
    · by_cases hctx : inp.ctxOk = false
      · exact Or.inl (by simp only [runEngine, hm]; rw [if_neg hact, if_pos hctx])
      · by_cases hproc : st.processingTrade = true
        · exact Or.inl (by simp only [runEngine, hm]; rw [if_neg hact, if_neg hctx, if_pos hproc])
        · have hrun : runEngine risk inp st = tickBody risk m inp st := by
            simp only [runEngine, hm]
            rw [if_neg hact, if_neg hctx, if_neg hproc]
          have htp : logIds (tpPhase risk m inp st).logs = logIds st.logs := by
            rw [tpPhase, tpLoop_logIds]
          rw [hrun]
          rcases tickBody_logs_cases risk m inp st with h | ⟨oc, p, h⟩
          · rw [h, htp]
            exact Or.inl rfl
          · rw [h, logIds_append, htp]
            exact Or.inr rfl

theorem runEngine_logs_length_mono (risk : RiskConfig) (inp : TickInput) (st : EngineState) :
    st.logs.length ≤ (runEngine risk inp st).1.logs.length := by
  have h1 : (logIds st.logs).length = st.logs.length := by simp [logIds]
  have h2 : (logIds (runEngine risk inp st).1.logs).length =
      (runEngine risk inp st).1.logs.length := by simp [logIds]
  rcases runEngine_logIds risk inp st with h | h
  · rw [← h1, ← h2, h]
  · rw [← h1, ← h2, h]
    simp

theorem pointwise_of_logs_eq (logs1 logs2 : List TradeLog) (h : logs2 = logs1) :
    ∀ (i : ℕ) (hi : i < logs1.length) (hj : i < logs2.length),
      sameButStatus (logs1.get ⟨i, hi⟩) (logs2.get ⟨i, hj⟩) ∧
      allowedStep (logs1.get ⟨i, hi⟩).status (logs2.get ⟨i, hj⟩).status := by
  subst h
  exact fun i hi hj => ⟨rfl, allowedStep_refl _⟩

/-- Pointwise per-tick status safety: every pre-existing ledger entry is
preserved up to a status transition allowed by the machine. -/
theorem runEngine_status_pointwise (risk : RiskConfig) (inp : TickInput) (st : EngineState)
    (hnd : (logIds st.logs).Nodup) :
    ∀ (i : ℕ) (hi : i < st.logs.length) (hj : i < (runEngine risk inp st).1.logs.length),
      sameButStatus (st.logs.get ⟨i, hi⟩) ((runEngine risk inp st).1.logs.get ⟨i, hj⟩) ∧
      allowedStep (st.logs.get ⟨i, hi⟩).status
        ((runEngine risk inp st).1.logs.get ⟨i, hj⟩).status := by
  rcases hm : inp.market with _ | m
  · exact pointwise_of_logs_eq st.logs _ (by simp only [runEngine, hm])
  · by_cases hact : st.isActive = false
    · exact pointwise_of_logs_eq st.logs _ (by simp only [runEngine, hm]; rw [if_pos hact])
    · by_cases hctx : inp.ctxOk = false
      · exact pointwise_of_logs_eq st.logs _
          (by simp only [runEngine, hm]; rw [if_neg hact, if_pos hctx])
      · by_cases hproc : st.processingTrade = true
        · exact pointwise_of_logs_eq st.logs _
            (by simp only [runEngine, hm]; rw [if_neg hact, if_neg hctx, if_pos hproc])
        · have hact2 : st.isActive = true := by
            cases hh : st.isActive
            · exact absurd hh hact
            · rfl
          have hctx2 : inp.ctxOk = true := by
            cases hh : inp.ctxOk
            · exact absurd hh hctx
            · rfl
          have hproc2 : st.processingTrade = false := by
            cases hh : st.processingTrade
            · rfl
            · exact absurd hh hproc
          obtain ⟨tail, htail⟩ := (tickBody_shape risk m inp st).1
          have hEngLogs : (runEngine risk inp st).1.logs =
              (tpPhase risk m inp st).logs ++ tail := by
            rw [runEngine_eq_body risk inp st m hm hact2 hctx2 hproc2]
            exact htail
          intro i hi hj
          have hopen : ∀ t ∈ openTrades st.logs m.id, ∀ l ∈ st.logs,
              l.id = t.id → l.status = .OPEN := by
            intro t ht l hl hid
            obtain ⟨htmem, htOPEN, _⟩ := (mem_openTrades st.logs m.id t).1 ht
            rw [eq_of_mem_ids_nodup st.logs l t hnd hl htmem hid]
            exact htOPEN
          have hlt : i < (tpPhase risk m inp st).logs.length := by
            rw [tpPhase, tpLoop_logs_length]
            exact hi
          have hpt := tpLoop_status_pointwise risk m inp (openTrades st.logs m.id)
            { logs := st.logs, orderIdx := 0,
              trace :=
                [.log .tickStart, .log .fetchingBooks,
                 .log (.clobDepth (jsOr inp.yesAskTop 1) (jsOr inp.noAskTop 1))] ++
                (if (openTrades st.logs m.id).length > 0
                 then [.log (.checkingPositions (openTrades st.logs m.id).length)] else []) }
            hopen (openTrades_ids_nodup st.logs m.id hnd) i hi hlt
          have e1 := List.get_of_eq hEngLogs ⟨i, hj⟩
          rw [e1, List.get_append i hlt]
          exact hpt

theorem runTicks_append (risk : RiskConfig) (xs ys : List TickInput) (st : EngineState) :
    runTicks risk (xs ++ ys) st = runTicks risk ys (runTicks risk xs st) := by
  rw [runTicks, runTicks, runTicks, List.foldl_append]

/-- Ledger ids across a run: the initial ids followed by a subsequence of
the fresh ids of the ticks, in order. -/
theorem runTicks_logIds (risk : RiskConfig) (xs : List TickInput) :
    ∀ st : EngineState, ∃ sub, logIds (runTicks risk xs st).logs = logIds st.logs ++ sub ∧
      List.Sublist sub (xs.map (fun i => i.freshId)) := by
  induction xs with
  | nil => exact fun st => ⟨[], by simp [runTicks], List.nil_sublist _⟩
  | cons x xs ih =>
    intro st
    obtain ⟨sub2, h2, hsub2⟩ := ih (runEngine risk x st).1
    rcases runEngine_logIds risk x st with h | h
    · refine ⟨sub2, ?_, ?_⟩
      · show logIds (runTicks risk xs (runEngine risk x st).1).logs = _
        rw [h2, h]
      · exact hsub2.cons _
    · refine ⟨x.freshId :: sub2, ?_, ?_⟩
      · show logIds (runTicks risk xs (runEngine risk x st).1).logs = _
        rw [h2, h, List.append_assoc]
        rfl
      · exact hsub2.cons₂ _

theorem runTicks_status_pointwise (risk : RiskConfig) (ys : List TickInput) :
    ∀ (st : EngineState),
    (logIds st.logs ++ ys.map (fun i => i.freshId)).Nodup →
    ∀ (i : ℕ) (hi : i < st.logs.length) (hj : i < (runTicks risk ys st).logs.length),
      sameButStatus (st.logs.get ⟨i, hi⟩) ((runTicks risk ys st).logs.get ⟨i, hj⟩) ∧
      allowedStep (st.logs.get ⟨i, hi⟩).status
        ((runTicks risk ys st).logs.get ⟨i, hj⟩).status := by
  induction ys with
  | nil => exact fun st hnd i hi hj => ⟨rfl, allowedStep_refl _⟩
  | cons y ys ih =>
    intro st hnd i hi hj
    have hnd1 : (logIds st.logs).Nodup := (List.nodup_append.1 hnd).1
    have hmid : i < (runEngine risk y st).1.logs.length :=
      lt_of_lt_of_le hi (runEngine_logs_length_mono risk y st)
    have hnd2 : (logIds (runEngine risk y st).1.logs ++
        ys.map (fun i => i.freshId)).Nodup := by
      rcases runEngine_logIds risk y st with h | h
      · rw [h]
        exact hnd.sublist (List.Sublist.append_left (List.sublist_cons_self _ _) _)
      · rw [h, List.append_assoc]
        exact hnd
    have p1 := runEngine_status_pointwise risk y st hnd1 i hi hmid
    have p2 := ih (runEngine risk y st).1 hnd2 i hmid hj
    exact ⟨sameButStatus_trans _ _ _ p1.1 p2.1, allowedStep_trans _ _ _ p1.2 p2.2⟩

/-- C6: the TradeLog status machine.  Along any run of ticks (with the
initial ledger ids and the ticks' fresh ids mutually distinct), every
ledger entry present at any intermediate point is preserved verbatim
except for its status, which can only stay put or move `OPEN → PARTIAL`
or `OPEN → CLOSED` — all edges of the claimed machine — so `CLOSED` is
never left and there is no re-opening; and every entry appended by a tick
is created with status `OPEN`. -/
theorem claim_C6_status_machine (risk : RiskConfig) (st : EngineState)
    (xs ys : List TickInput)
    (hnd : (logIds st.logs ++ (xs ++ ys).map (fun i => i.freshId)).Nodup) :
    (∀ (i : ℕ) (hi : i < (runTicks risk xs st).logs.length)
       (hj : i < (runTicks risk (xs ++ ys) st).logs.length),
       sameButStatus ((runTicks risk xs st).logs.get ⟨i, hi⟩)
         ((runTicks risk (xs ++ ys) st).logs.get ⟨i, hj⟩) ∧
       allowedStep ((runTicks risk xs st).logs.get ⟨i, hi⟩).status
         ((runTicks risk (xs ++ ys) st).logs.get ⟨i, hj⟩).status) ∧
    (∀ (inp : TickInput) (st2 : EngineState) (i : ℕ), st2.logs.length ≤ i →
       ∀ hj : i < (runEngine risk inp st2).1.logs.length,
       ((runEngine risk inp st2).1.logs.get ⟨i, hj⟩).status = .OPEN) := by
  constructor
  · have hmap : (xs ++ ys).map (fun i => i.freshId) =
        xs.map (fun i => i.freshId) ++ ys.map (fun i => i.freshId) :=
      List.map_append _ _ _
    rw [hmap] at hnd
    have hmid : (logIds (runTicks risk xs st).logs ++
        ys.map (fun i => i.freshId)).Nodup := by
      obtain ⟨sub, hsub_eq, hsub⟩ := runTicks_logIds risk xs st
      rw [hsub_eq, List.append_assoc]
      exact hnd.sublist
        (List.Sublist.append_left ((hsub.append (List.Sublist.refl _))) _)
    have he : runTicks risk (xs ++ ys) st = runTicks risk ys (runTicks risk xs st) :=
      runTicks_append risk xs ys st
    intro i hi hj
    have hj2 : i < (runTicks risk ys (runTicks risk xs st)).logs.length := by
      rw [← he]
      exact hj
    have hp := runTicks_status_pointwise risk ys (runTicks risk xs st) hmid i hi hj2
    have he2 : (runTicks risk (xs ++ ys) st).logs =
        (runTicks risk ys (runTicks risk xs st)).logs := by
      rw [he]
    have e := List.get_of_eq he2 ⟨i, hj⟩
    rw [e]
    exact hp
  · intro inp st2 i hge hj
    rcases hm : inp.market with _ | m
    · have hlen : (runEngine risk inp st2).1.logs = st2.logs := by
        simp only [runEngine, hm]
      rw [hlen] at hj
      exact absurd hj (by omega)
    · by_cases hact : st2.isActive = false
      · have hlen : (runEngine risk inp st2).1.logs = st2.logs := by
          simp only [runEngine, hm]
          rw [if_pos hact]
        rw [hlen] at hj
        exact absurd hj (by omega)
      · by_cases hctx : inp.ctxOk = false
        · have hlen : (runEngine risk inp st2).1.logs = st2.logs := by
            simp only [runEngine, hm]
            rw [if_neg hact, if_pos hctx]
          rw [hlen] at hj
          exact absurd hj (by omega)
        · by_cases hproc : st2.processingTrade = true
          · have hlen : (runEngine risk inp st2).1.logs = st2.logs := by
              simp only [runEngine, hm]
              rw [if_neg hact, if_neg hctx, if_pos hproc]
            rw [hlen] at hj
            exact absurd hj (by omega)
          · have hact2 : st2.isActive = true := by
              cases hh : st2.isActive
              · exact absurd hh hact
              · rfl
            have hctx2 : inp.ctxOk = true := by
              cases hh : inp.ctxOk
              · exact absurd hh hctx
              · rfl
            have hproc2 : st2.processingTrade = false := by
              cases hh : st2.processingTrade
              · rfl
              · exact absurd hh hproc
            have hrun : runEngine risk inp st2 = tickBody risk m inp st2 :=
              runEngine_eq_body risk inp st2 m hm hact2 hctx2 hproc2
            have hlen2 : (tpPhase risk m inp st2).logs.length = st2.logs.length := by
              rw [tpPhase, tpLoop_logs_length]
            rcases tickBody_logs_cases risk m inp st2 with h | ⟨oc, p, h⟩
            · have hlen : (runEngine risk inp st2).1.logs.length = st2.logs.length := by
                rw [hrun, h, hlen2]
              rw [hlen] at hj
              exact absurd hj (by omega)
            · have hEng : (runEngine risk inp st2).1.logs =
                  (tpPhase risk m inp st2).logs ++ [entryLog risk m inp oc p] := by
                rw [hrun, h]
              have e := List.get_of_eq hEng ⟨i, hj⟩
              rw [e]
              have hieq : i = (tpPhase risk m inp st2).logs.length := by
                have hb := hj
                rw [hEng] at hb
                simp only [List.length_append, List.length_cons, List.length_nil] at hb
                omega
              subst hieq
              rw [List.get_eq_getElem, List.getElem_concat_length] <;> rfl

/-- Witness for C6 on a concrete one-tick run over a one-entry ledger. -/
theorem claim_C6_status_machine_witness :
    (∀ (i : ℕ) (hi : i < (runTicks risk0 [] stateW).logs.length)
       (hj : i < (runTicks risk0 ([] ++ [inputW]) stateW).logs.length),
       sameButStatus ((runTicks risk0 [] stateW).logs.get ⟨i, hi⟩)
         ((runTicks risk0 ([] ++ [inputW]) stateW).logs.get ⟨i, hj⟩) ∧
       allowedStep ((runTicks risk0 [] stateW).logs.get ⟨i, hi⟩).status
         ((runTicks risk0 ([] ++ [inputW]) stateW).logs.get ⟨i, hj⟩).status) ∧
    (∀ (inp : TickInput) (st2 : EngineState) (i : ℕ), st2.logs.length ≤ i →
       ∀ hj : i < (runEngine risk0 inp st2).1.logs.length,
       ((runEngine risk0 inp st2).1.logs.get ⟨i, hj⟩).status = .OPEN) :=
  claim_C6_status_machine risk0 stateW [] [inputW] (by decide)

/-- Witness for C1: with `modelProb = 85`, `bestYesAsk = 0.78` and the
default thresholds, the YES trigger holds and the decision is YES at the
ask. -/
theorem claim_C1_entry_trigger_witness :
    entryDecision risk0 85 0.78 1 = some (.YES, 0.78) :=
  (claim_C1_entry_trigger risk0 85 0.78 1).1.mpr
    (by norm_num [specYesTrigger, risk0])

end Zen2
